import Mathlib

/-!
Verification of the Trim-Automation BOM pipeline.

Shallow embedding of `bom_automation` (parsers/pdf_parser.py, parsers/color_bom.py,
parsers/care_content.py, validators/matcher.py, validators/filler.py) into Lean.
Cells are strings; Python dicts are modelled as insertion-ordered association
lists; pandas DataFrames as a list of column names plus rows of cells.
-/

namespace BomAuto

/-! ### Python dict as an insertion-ordered association list -/

/-- `d.get(k)` on a Python dict. -/
def dget {α : Type} : List (String × α) → String → Option α
  | [], _ => none
  | p :: d, k => if p.1 == k then some p.2 else dget d k

/-- `d[k] = v` on a Python dict: replace in place if present, else append. -/
def dset {α : Type} : List (String × α) → String → α → List (String × α)
  | [], k, v => [(k, v)]
  | p :: d, k, v => if p.1 == k then (k, v) :: d else p :: dset d k v

/-- `d.setdefault(k, v)` on a Python dict. -/
def dsetdefault {α : Type} (d : List (String × α)) (k : String) (v : α) : List (String × α) :=
  if (dget d k).isSome then d else d ++ [(k, v)]

/-! ### Character classes and basic Python string operations -/

def isUpAsc (c : Char) : Bool := 'A' ≤ c && c ≤ 'Z'

def isLowAsc (c : Char) : Bool := 'a' ≤ c && c ≤ 'z'

def isAlphaAsc (c : Char) : Bool := isUpAsc c || isLowAsc c

/-- A regex word character `\w`: `[A-Za-z0-9_]`. -/
def isWordCh (c : Char) : Bool := isAlphaAsc c || c.isDigit || c == '_'

/-- Whitespace as Python `\s` / `str.strip` sees it (on the data in scope). -/
def isWsCh (c : Char) : Bool := c == ' ' || c == '\t' || c == '\n' || c == '\r'

def trimTrailWs (l : List Char) : List Char := (l.reverse.dropWhile isWsCh).reverse

def trimLeadWs (l : List Char) : List Char := l.dropWhile isWsCh

/-- Python `str.strip()`. -/
def pyStrip (s : String) : String := String.mk (trimTrailWs (trimLeadWs s.data))

/-- Python `str.lower()` (ASCII data). -/
def pyLower (s : String) : String := String.mk (s.data.map Char.toLower)

/-- Python `str.upper()` (ASCII data). -/
def pyUpper (s : String) : String := String.mk (s.data.map Char.toUpper)

/-- Python `a or b` on strings: first operand unless it is falsy (empty). -/
def pyOr (a b : String) : String := if a == "" then b else a

/-- Does `l` start with `nd`? -/
def leadsWith : List Char → List Char → Bool
  | [], _ => true
  | _ :: _, [] => false
  | a :: nd, b :: l => a == b && leadsWith nd l

/-- Does `nd` occur somewhere inside `l`? -/
def subAt (nd : List Char) : List Char → Bool
  | [] => nd.isEmpty
  | b :: l => leadsWith nd (b :: l) || subAt nd l

/-- Python `needle in hay` on strings. -/
def strContains (hay needle : String) : Bool := subAt needle.data hay.data

/-- Python `s.replace(old, new)` for a single-character `old` and `new`. -/
def replaceCh (o n : Char) (s : String) : String :=
  String.mk (s.data.map (fun c => if c == o then n else c))

/-- Python `str.split()` (split on whitespace runs; no empty pieces). -/
def splitWsGo (acc : List Char) : List Char → List (List Char)
  | [] => if acc.isEmpty then [] else [acc.reverse]
  | c :: rest =>
    if isWsCh c then
      if acc.isEmpty then splitWsGo [] rest else acc.reverse :: splitWsGo [] rest
    else splitWsGo (c :: acc) rest

def pySplitWs (s : String) : List String := (splitWsGo [] s.data).map String.mk

/-- Python `str.splitlines()` restricted to `\n` separators. -/
def splitLinesGo (acc : List Char) : List Char → List (List Char)
  | [] => [acc.reverse]
  | c :: rest => if c == '\n' then acc.reverse :: splitLinesGo [] rest else splitLinesGo (c :: acc) rest

def pySplitLines (s : String) : List String :=
  if s.data.isEmpty then []
  else
    let ps := (splitLinesGo [] s.data).map String.mk
    if s.data.getLast? == some '\n' then ps.dropLast else ps

/-- Python `s.strip(chars)` for a character set given as a predicate. -/
def stripCharsBy (p : Char → Bool) (s : String) : String :=
  String.mk (((s.data.dropWhile p).reverse.dropWhile p).reverse)

/-- Python `s.rstrip(chars)` for a character set given as a predicate. -/
def rstripBy (p : Char → Bool) (s : String) : String :=
  String.mk ((s.data.reverse.dropWhile p).reverse)

/-- Everything after the first `-`, i.e. Python `s.split("-", 1)[1]` when `-` occurs. -/
def afterFirstDash (s : String) : String :=
  String.mk ((s.data.dropWhile (fun c => c != '-')).drop 1)

/-- Python `s.split("-")[0]` (also `s.split("-", 1)[0]`). -/
def beforeFirstDash (s : String) : String :=
  String.mk (s.data.takeWhile (fun c => c != '-'))

/-- Maximal word-character tokens of a string, in order. -/
def wordRunsGo (acc : List Char) : List Char → List (List Char)
  | [] => if acc.isEmpty then [] else [acc.reverse]
  | c :: rest =>
    if isWordCh c then wordRunsGo (c :: acc) rest
    else if acc.isEmpty then wordRunsGo [] rest
    else acc.reverse :: wordRunsGo [] rest

def wordRuns (s : String) : List String := (wordRunsGo [] s.data).map String.mk

/-- All matches of `\b(\d{m,n})\b`: word tokens made of digits only with length
in `[m, n]`.  (A digit run flanked by letters, digits or `_` has no word
boundary, so only complete word tokens can match.) -/
def digitTokens (m n : Nat) (s : String) : List String :=
  (wordRuns s).filter (fun t => t.data.all Char.isDigit && m ≤ t.length && t.length ≤ n)

/-! ### validators/matcher.py -/

/-- `extract_material_code`: first match of `\b(\d{3,6})\b`, else `""`. -/
def extract_material_code (text : String) : String :=
  if text == "" then "" else ((digitTokens 3 6 text).headD "")

/-- `extract_id_only`. -/
def extract_id_only (value : String) : String :=
  if value == "" || value == "N/A" then value
  else
    let text := pyStrip value
    if text == "" then "N/A"
    else
      let firstTok := (pySplitWs text).headD text
      rstripBy (fun c => c == '.' || c == ',' || c == ';' || c == ':' || c == '-' || c == '(' || c == ')') firstTok

/-- `_extract_numeric_prefix`: leading numeric portion, supporting
`COL-464 ...` → `464`, `009-Black` → `009`. -/
def extractNumPre (value : String) : String :=
  let l := (pyStrip value).data
  let letters := l.takeWhile isAlphaAsc
  if letters.isEmpty then
    String.mk (l.takeWhile Char.isDigit)
  else
    match l.dropWhile isAlphaAsc with
    | '-' :: r2 =>
      let ds := r2.takeWhile Char.isDigit
      if ds.isEmpty then "" else String.mk ds
    | _ => ""

/-- Numeric value of a decimal digit string, for stating that two prefixes
are numerically equal even when their digit strings differ. -/
def natOfDigits (s : String) : Nat :=
  s.data.foldl (fun n c => 10 * n + (c.toNat - 48)) 0

def noiseWords : List String := ["col", "color", "colour", "the", "and", "with", "of", "a", "an"]

def isDelimCh (c : Char) : Bool := isWsCh c || c == ',' || c == '/' || c == '-'

/-- Tokens of `re.split(r'[\s,/\-]+', v)` (empty pieces are irrelevant to the
callers, which filter on length ≥ 3). -/
def delimToksGo (acc : List Char) : List Char → List (List Char)
  | [] => if acc.isEmpty then [] else [acc.reverse]
  | c :: rest =>
    if isDelimCh c then
      if acc.isEmpty then delimToksGo [] rest else acc.reverse :: delimToksGo [] rest
    else delimToksGo (c :: acc) rest

def delimToks (s : String) : List String := (delimToksGo [] s.data).map String.mk

/-- `re.sub(r'^[a-z]+-\d+\s*', '', v)`. -/
def stripAliasPre (l : List Char) : List Char :=
  let letters := l.takeWhile isLowAsc
  if letters.isEmpty then l
  else
    match l.dropWhile isLowAsc with
    | '-' :: r2 =>
      let ds := r2.takeWhile Char.isDigit
      if ds.isEmpty then l else (r2.dropWhile Char.isDigit).dropWhile isWsCh
    | _ => l

/-- `re.sub(r'^\d+-\s*', '', v)`. -/
def stripNumDashPre (l : List Char) : List Char :=
  let ds := l.takeWhile Char.isDigit
  if ds.isEmpty then l
  else
    match l.dropWhile Char.isDigit with
    | '-' :: r2 => r2.dropWhile isWsCh
    | _ => l

/-- `_color_words`: meaningful color words of a colorway string. -/
def colorWords (value : String) : List String :=
  let v := (pyLower (pyStrip value)).data
  let v := stripAliasPre v
  let v := stripNumDashPre v
  (delimToks (String.mk v)).filter (fun t => 3 ≤ t.length && !(noiseWords.contains t))

def sentinelVals : List String := ["n/a", "nan", "none", "null", ""]

/-- Lexicographic comparison of scored candidates `(overlap, cwCount, cw)` with
score `overlap / cwCount` compared as exact rationals (cross-multiplied) and
ties broken by overlap count and then Python string order on the candidate. -/
def scoredGT (a b : Nat × Nat × String) : Bool :=
  let sa := a.1 * b.2.1
  let sb := b.1 * a.2.1
  if sa ≠ sb then sa > sb
  else if a.1 ≠ b.1 then a.1 > b.1
  else decide (b.2.2 < a.2.2)

/-- `sorted(..., reverse=True)[0]` on the scored list: the first entry that is
strictly greater than every entry before the current best. -/
def bestScored (l : List (Nat × Nat × String)) : Option (Nat × Nat × String) :=
  l.foldl (fun best x =>
    match best with
    | none => some x
    | some b => if scoredGT x b then some x else some b) none

/-- `normalize_colorway`: layered matching of a free-text colorway against the
document's colorway keys. -/
def normalize_colorway (colorOptionValue : String) (availableColorways : List String) : Option String :=
  if colorOptionValue == "" || availableColorways.isEmpty then none
  else
    let val := pyStrip colorOptionValue
    let valLower := pyLower val
    if sentinelVals.contains valLower then none
    else if (pyStrip val).length < 2 then none
    -- 1. exact
    else if availableColorways.contains val then some val
    else
      -- 2. case-insensitive exact
      match availableColorways.find? (fun cw => pyLower cw == valLower) with
      | some cw => some cw
      | none =>
        -- 3. numeric prefix match
        let inputNum := extractNumPre val
        match (if inputNum != "" then
                 availableColorways.find? (fun cw =>
                   extractNumPre cw != "" && extractNumPre cw == inputNum)
               else none) with
        | some cw => some cw
        | none =>
          -- 4. color-word overlap scoring
          let inputWords := (colorWords val).eraseDups
          let scored := (if inputWords.isEmpty then [] else
            availableColorways.filterMap (fun cw =>
              let cwWords := (colorWords cw).eraseDups
              if cwWords.isEmpty then none
              else
                let overlap := (cwWords.filter (fun w => inputWords.contains w)).length
                if overlap ≠ 0 then some (overlap, cwWords.length, cw) else none))
          match bestScored scored with
          | some (cnt, _, cw) =>
            if 1 ≤ cnt then some cw
            else none
          | none =>
            -- 5. substring on the color-name part
            match availableColorways.find? (fun cw =>
              let colorName := if strContains cw "-" then pyLower (afterFirstDash cw) else pyLower cw
              strContains colorName valLower || strContains valLower colorName) with
            | some cw => some cw
            | none =>
              -- 6. any shared raw word of length ≥ 3
              let valRaw := (delimToks valLower).filter (fun w => 3 ≤ w.length)
              availableColorways.find? (fun cw =>
                let cwRaw := (delimToks (pyLower cw)).filter (fun w => 3 ≤ w.length)
                cwRaw.any (fun w => valRaw.contains w))

/-! ### parsers/pdf_parser.py — table normalisation -/

/-- Cell cleanup used throughout the parser:
`str(c).replace("\n", " ").strip()`. -/
def cleanCellS (s : String) : String := pyStrip (replaceCh '\n' ' ' s)

/-- A pandas DataFrame of string cells: ordered column names plus rows. -/
structure Table where
  cols : List String
  rows : List (List String)
deriving DecidableEq, Repr

/-- `name = c if c else f"col_{i}"`: a blank header cell at index `i` is
synthesised as `col_<i>`. -/
def headerBase (i : Nat) (c : String) : String := if c == "" then "col_" ++ toString i else c

/-- Header-name construction of `_rows_to_df` (also used for the stitched
costing-detail header in `parse_bom_pdf`): blank cells become `col_<i>`,
repeats of a name get numeric suffixes, tracked by the `seen` dict. -/
def buildHeaderGo (seen : List (String × Nat)) (i : Nat) : List String → List String
  | [] => []
  | c :: cs =>
    let base := headerBase i c
    match dget seen base with
    | some n => (base ++ "_" ++ toString (n + 1)) :: buildHeaderGo (dset seen base (n + 1)) (i + 1) cs
    | none => base :: buildHeaderGo (dset seen base 0) (i + 1) cs

def buildHeader (headerRow : List String) : List String := buildHeaderGo [] 0 headerRow

/-- Spec-side description of the header names: the cell at index `i` is
`col_<i>` when blank, and the `k`-th repeat of a name (counting earlier
occurrences of the same post-blank name) is suffixed with `_k`, the first
occurrence keeping the bare name. -/
def specHeaderGo (prev : List String) : List String → List String
  | [] => []
  | c :: cs =>
    let b := headerBase prev.length c
    let k := prev.count b
    (if k == 0 then b else b ++ "_" ++ toString k) :: specHeaderGo (prev ++ [b]) cs

def specHeaderNames (cells : List String) : List String := specHeaderGo [] cells

/-- Count of non-empty cells in a row. -/
def countNonEmpty (r : List String) : Nat := (r.filter (fun c => c != "")).length

/-- `_rows_to_df`'s header-row search: the row with the strictly greatest
non-empty-cell count so far wins; ties keep the earlier row. -/
def bestHeaderIdxGo : List (List String) → Nat → Nat → Nat → Nat
  | [], _, _, best => best
  | r :: rs, i, bestCount, best =>
    if countNonEmpty r > bestCount then bestHeaderIdxGo rs (i + 1) (countNonEmpty r) i
    else bestHeaderIdxGo rs (i + 1) bestCount best

def bestHeaderIdx (rows : List (List String)) : Nat := bestHeaderIdxGo (rows.take 5) 0 0 0

/-- Pad with empty strings or truncate a row to `n` cells. -/
def padTrim (n : Nat) (r : List String) : List String :=
  if r.length < n then r ++ List.replicate (n - r.length) "" else r.take n

/-- `_rows_to_df`: clean the raw rows, pick the header among the first five
rows, build unique header names, reconcile row widths, and drop all-empty
rows. -/
def rowsToDf (raws : List (List String)) : Table :=
  let rows := raws.map (fun r => r.map cleanCellS)
  if rows.isEmpty then ⟨[], []⟩
  else
    let idx := bestHeaderIdx rows
    let headerRow := rows.getD idx []
    let numCols := headerRow.length
    let header := buildHeader headerRow
    let data := (rows.drop (idx + 1)).map (padTrim numCols)
    ⟨header, data.filter (fun r => !(r.all (fun c => c == "")))⟩

/-! #### Lemmas about the header construction -/

theorem dget_dset_self {α : Type} (d : List (String × α)) (k : String) (v : α) :
    dget (dset d k v) k = some v := by
  induction d with
  | nil => simp [dget, dset]
  | cons p d ih =>
    by_cases h : p.1 == k
    · simp [dset, h, dget]
    · simp [dset, h, dget, ih]

theorem dget_dset_ne {α : Type} (d : List (String × α)) (k q : String) (v : α)
    (h : q ≠ k) : dget (dset d k v) q = dget d q := by
  induction d with
  | nil => simp [dget, dset, Ne.symm h]
  | cons p d ih =>
    by_cases hp : p.1 = k
    · simp [dset, hp, dget, Ne.symm h]
    · have hp2 : (p.1 == k) = false := by simp [hp]
      simp only [dset, hp2, Bool.false_eq_true, reduceIte, dget]
      by_cases hq : p.1 = q
      · simp [hq]
      · simp [hq, ih]

theorem count_append_self (prev : List String) (b : String) :
    (prev ++ [b]).count b = prev.count b + 1 := by
  simp [List.count_append]

theorem count_append_other (prev : List String) (b bb : String) (h : bb ≠ b) :
    (prev ++ [b]).count bb = prev.count bb := by
  simp [List.count_append, List.count_cons, List.count_nil, h]

/-- The imperative header construction computes exactly the spec-side names.
The `seen` dict stores one less than the number of earlier occurrences of
each name. -/
theorem buildHeaderGo_eq_spec (cs : List String) (prev : List String) (seen : List (String × Nat))
    (hinv : ∀ b : String, dget seen b = if prev.count b = 0 then none else some (prev.count b - 1)) :
    buildHeaderGo seen prev.length cs = specHeaderGo prev cs := by
  induction cs generalizing prev seen with
  | nil => rfl
  | cons c cs ih =>
    have hlen : prev.length + 1 = (prev ++ [headerBase prev.length c]).length := by simp
    simp only [buildHeaderGo, specHeaderGo]
    cases hdg : dget seen (headerBase prev.length c) with
    | none =>
      have hc0 : prev.count (headerBase prev.length c) = 0 := by
        by_contra hne
        rw [hinv _] at hdg
        simp [hne] at hdg
      have hrec : buildHeaderGo (dset seen (headerBase prev.length c) 0) (prev.length + 1) cs
          = specHeaderGo (prev ++ [headerBase prev.length c]) cs := by
        rw [hlen]
        apply ih
        intro bb
        by_cases hbb : bb = headerBase prev.length c
        · subst hbb
          rw [dget_dset_self, count_append_self, hc0]
          simp
        · rw [dget_dset_ne _ _ _ _ hbb, hinv bb, count_append_other _ _ _ hbb]
      dsimp only
      rw [hrec, hc0]
      simp
    | some n =>
      have hcne : prev.count (headerBase prev.length c) ≠ 0 := by
        intro h0
        rw [hinv _, h0] at hdg
        simp at hdg
      have hn1 : n + 1 = prev.count (headerBase prev.length c) := by
        rw [hinv _] at hdg
        simp [hcne] at hdg
        omega
      have hrec : buildHeaderGo (dset seen (headerBase prev.length c) (n + 1)) (prev.length + 1) cs
          = specHeaderGo (prev ++ [headerBase prev.length c]) cs := by
        rw [hlen]
        apply ih
        intro bb
        by_cases hbb : bb = headerBase prev.length c
        · subst hbb
          rw [dget_dset_self, count_append_self]
          have hpos : ¬ (prev.count (headerBase prev.length c) + 1 = 0) := by omega
          simp only [hpos, reduceIte, Nat.add_sub_cancel, Option.some.injEq]
          omega
        · rw [dget_dset_ne _ _ _ _ hbb, hinv bb, count_append_other _ _ _ hbb]
      dsimp only
      rw [hrec, hn1]
      have hb0 : (prev.count (headerBase prev.length c) == 0) = false := by
        simpa using hcne
      simp [hb0]

theorem buildHeader_eq_spec (cells : List String) :
    buildHeader cells = specHeaderNames cells := by
  have := buildHeaderGo_eq_spec cells [] [] (by intro b; simp [dget, List.count_nil])
  simpa [buildHeader, specHeaderNames] using this

/-! #### Lemmas for normaliser idempotence -/

theorem map_self {α : Type} (l : List α) (f : α → α) (h : ∀ x ∈ l, f x = x) : l.map f = l := by
  induction l with
  | nil => rfl
  | cons x l ih =>
    simp only [List.map_cons]
    rw [h x (by simp), ih (fun y hy => h y (by simp [hy]))]

theorem countNonEmpty_le (r : List String) : countNonEmpty r ≤ r.length :=
  List.length_filter_le _ r

theorem countNonEmpty_full (r : List String) (h : ∀ c ∈ r, c ≠ "") :
    countNonEmpty r = r.length := by
  unfold countNonEmpty
  rw [List.filter_eq_self.mpr]
  intro c hc
  simpa using h c hc

theorem bestHeaderIdxGo_const (rs : List (List String)) (i L best : Nat)
    (h : ∀ r ∈ rs, countNonEmpty r ≤ L) :
    bestHeaderIdxGo rs i L best = best := by
  induction rs generalizing i with
  | nil => rfl
  | cons r rs ih =>
    have hr : ¬ (countNonEmpty r > L) := by
      have := h r (by simp)
      omega
    simp only [bestHeaderIdxGo, hr, reduceIte]
    exact ih (i + 1) (fun r hr => h r (by simp [hr]))

theorem bestHeaderIdx_zero (hdr : List String) (data : List (List String))
    (hne : hdr ≠ []) (hfull : ∀ c ∈ hdr, c ≠ "")
    (hw : ∀ r ∈ data, countNonEmpty r ≤ hdr.length) :
    bestHeaderIdx (hdr :: data) = 0 := by
  show bestHeaderIdxGo (hdr :: List.take 4 data) 0 0 0 = 0
  have hcnt : countNonEmpty hdr = hdr.length := countNonEmpty_full hdr hfull
  have hpos : countNonEmpty hdr > 0 := by
    rw [hcnt]
    cases hdr with
    | nil => exact absurd rfl hne
    | cons a l => simp
  simp only [bestHeaderIdxGo, hpos, reduceIte]
  exact bestHeaderIdxGo_const _ _ _ _ (by
    intro r hr
    exact le_trans (hw r (List.take_subset _ _ hr)) (le_of_eq hcnt.symm))

theorem specHeaderGo_id (cs : List String) (prev : List String)
    (hfull : ∀ c ∈ cs, c ≠ "") (hdisj : ∀ c ∈ cs, c ∉ prev) (hnd : cs.Nodup) :
    specHeaderGo prev cs = cs := by
  induction cs generalizing prev with
  | nil => rfl
  | cons c cs ih =>
    have hc : headerBase prev.length c = c := by
      simp [headerBase, hfull c (by simp)]
    have hcount : prev.count c = 0 := by
      rw [List.count_eq_zero]
      exact hdisj c (by simp)
    simp only [specHeaderGo, hc, hcount]
    have hrest : specHeaderGo (prev ++ [c]) cs = cs := by
      apply ih
      · intro x hx
        exact hfull x (by simp [hx])
      · intro x hx
        simp only [List.mem_append, List.mem_singleton]
        push_neg
        refine ⟨hdisj x (by simp [hx]), ?_⟩
        intro hxc
        subst hxc
        exact (List.nodup_cons.mp hnd).1 hx
      · exact (List.nodup_cons.mp hnd).2
    rw [hrest]
    simp

theorem padTrim_self (n : Nat) (r : List String) (h : r.length = n) : padTrim n r = r := by
  unfold padTrim
  have : ¬ (r.length < n) := by omega
  rw [if_neg this, ← h, List.take_length]

/-! ### parsers/care_content.py -/

def KNOWN_CARE_CODE : String := "3000"

/-- `_FABRIC_SECTIONS` in source order. -/
def fabricSections : List String :=
  ["Exclusive of Trimming", "Faux Fur", "Insulation", "Lining", "Fill",
   "Face", "Body", "Trim", "Outer", "Inner", "Shell"]

/-- `sorted(_FABRIC_SECTIONS, key=len, reverse=True)`: Python's sort is stable,
so names of equal length keep their source order. -/
def fabricSectionsByLen : List String :=
  ["Exclusive of Trimming", "Insulation", "Faux Fur", "Lining", "Outer", "Inner", "Shell",
   "Fill", "Face", "Body", "Trim"]

/-- Case-insensitive prefix test (ASCII). -/
def leadsWithCi : List Char → List Char → Bool
  | [], _ => true
  | _ :: _, [] => false
  | a :: nd, b :: l => a.toLower == b.toLower && leadsWithCi nd l

def ccLit : List Char := "content code:".data

/-- `re.search(r'CONTENT CODE:\s*(\w+)', header, re.IGNORECASE)`: leftmost
occurrence of the literal followed by optional whitespace and at least one
word character; on a failed tail the scan resumes at the next position. -/
def findContentCode : List Char → Option (List Char)
  | [] => none
  | c :: rest =>
    if leadsWithCi ccLit (c :: rest) then
      let w := (((c :: rest).drop ccLit.length).dropWhile isWsCh).takeWhile isWordCh
      if w.isEmpty then findContentCode rest else some w
    else findContentCode rest

/-- `re.search(r'CONTENT CODE:\s*\w+\s+(.*)', header, re.IGNORECASE)`: the
captured group runs from after the whitespace following the code word to the
next newline (or the end). -/
def findContentFull : List Char → Option (List Char)
  | [] => none
  | c :: rest =>
    (if leadsWithCi ccLit (c :: rest) then
      let afterWs := ((c :: rest).drop ccLit.length).dropWhile isWsCh
      let w := afterWs.takeWhile isWordCh
      let r3 := afterWs.dropWhile isWordCh
      if !w.isEmpty && (match r3 with | x :: _ => isWsCh x | [] => false) then
        some ((r3.dropWhile isWsCh).takeWhile (fun ch => ch != '\n'))
      else none
    else none).orElse (fun _ => findContentFull rest)

/-- One alternative of `\b(<section>):` at the current position: section names
are tried longest first, and the name must be followed by a colon. -/
def trySec (l : List Char) : Option (String × List Char) :=
  fabricSectionsByLen.findSome? (fun name =>
    if leadsWith (name.data ++ [':']) l then
      some (name, l.drop (name.data.length + 1))
    else none)

theorem findSome_prop {α β : Type} (xs : List α) (f : α → Option β) (P : β → Prop)
    (hf : ∀ a b, f a = some b → P b) : ∀ b, xs.findSome? f = some b → P b := by
  induction xs with
  | nil => intro b h; simp [List.findSome?] at h
  | cons x xs ih =>
    intro b h
    rw [List.findSome?_cons] at h
    rcases hx : f x with _ | v
    · rw [hx] at h
      exact ih b h
    · rw [hx] at h
      cases h
      exact hf x b hx

theorem leadsWith_length_le (nd : List Char) : ∀ l, leadsWith nd l = true → nd.length ≤ l.length := by
  induction nd with
  | nil => intro l _; simp
  | cons a nd ih =>
    intro l h
    cases l with
    | nil => simp [leadsWith] at h
    | cons b l =>
      simp only [leadsWith, Bool.and_eq_true] at h
      have := ih l h.2
      simp
      omega

theorem trySec_shrink (l : List Char) (p : String × List Char) (h : trySec l = some p) :
    p.2.length < l.length := by
  refine findSome_prop fabricSectionsByLen _ (fun q => q.2.length < l.length) ?_ p h
  intro name b hb
  by_cases hl : leadsWith (name.data ++ [':']) l = true
  · rw [if_pos hl] at hb
    cases hb
    have hle := leadsWith_length_le _ _ hl
    simp only [List.length_append, List.length_singleton] at hle
    simp only [List.length_drop]
    omega
  · rw [if_neg hl] at hb
    simp at hb

/-- Fuel-based worker for `splitSecs`: the list shrinks at every recursive
call (`trySec_shrink`), so fuel equal to the list length never runs out. -/
def splitSecsF : Nat → Bool → List Char → List Char × List (String × List Char)
  | 0, _, l => (l, [])
  | fuel + 1, pw, l =>
    match l with
    | [] => ([], [])
    | c :: rest =>
      if pw then
        let r := splitSecsF fuel (isWordCh c) rest
        (c :: r.1, r.2)
      else
        match trySec (c :: rest) with
        | some nr =>
          let r := splitSecsF fuel false nr.2
          ([], (nr.1, r.1) :: r.2)
        | none =>
          let r := splitSecsF fuel (isWordCh c) rest
          (c :: r.1, r.2)

/-- `re.split(f'\\b({sections}):', text)` reassembled as (leading text,
list of (section name, following text)); the boolean tracks whether the
previous character was a word character (for the `\b`). -/
def splitSecs (pw : Bool) (l : List Char) : List Char × List (String × List Char) :=
  splitSecsF l.length pw l

structure CEntry where
  content_code : String
  shell : String
  sections : List (String × String)
  full_content : String
deriving DecidableEq, Repr

def stripCommaTail (s : String) : String := rstripBy (fun c => c == ',') (pyStrip s)

/-- `_parse_content_header`. -/
def parse_content_header (header : String) : CEntry :=
  let code := match findContentCode header.data with
    | some w => pyStrip (String.mk w)
    | none => ""
  let full := match findContentFull header.data with
    | some t => pyStrip (String.mk t)
    | none => ""
  let groups := (splitSecs false full.data).2
  let sections := groups.foldl (fun d g => dset d (pyStrip g.1) (stripCommaTail (String.mk g.2))) []
  { content_code := code
    shell := (dget sections "Shell").getD ""
    sections := sections
    full_content := full }

def careLit : List Char := "care code:".data

/-- `re.search(r'Care Code:\s*(\S+)', header, re.IGNORECASE)`. -/
def findCareCode : List Char → Option (List Char)
  | [] => none
  | c :: rest =>
    if leadsWithCi careLit (c :: rest) then
      let w := (((c :: rest).drop careLit.length).dropWhile isWsCh).takeWhile (fun ch => !(isWsCh ch))
      if w.isEmpty then findCareCode rest else some w
    else findCareCode rest

/-- `_parse_care_header`: `'Care Code: 3000' → '3000'`, defaulting to the
known care code. -/
def parse_care_header (h : String) : String :=
  match findCareCode h.data with
  | some w => pyStrip (String.mk w)
  | none => KNOWN_CARE_CODE

/-- `row.get(c)` on a DataFrame row indexed by the column list. -/
def rowGet? (cols row : List String) (c : String) : Option String :=
  ((cols.zip row).find? (fun p => p.1 == c)).map Prod.snd

/-- `row.get(c, "")`. -/
def rowGetD (cols row : List String) (c : String) : String := (rowGet? cols row c).getD ""

/-- `"CONTENT CODE" in cell.upper() and len(cell) > 15` (on the stripped cell). -/
def isCCCandidate (s : String) : Bool := strContains (pyUpper s) "CONTENT CODE" && s.length > 15

/-- First cell of a row containing a parsable CONTENT CODE block. -/
def rowCodeCell (row : List String) : Option CEntry :=
  row.findSome? (fun cell =>
    let cs := pyStrip cell
    if isCCCandidate cs then
      let p := parse_content_header cs
      if p.content_code != "" then some p else none
    else none)

/-- First column header holding a CONTENT CODE block (the scan breaks at the
first candidate column whether or not its code parses). -/
def headerBlock (cols : List String) : Option CEntry :=
  match cols.find? (fun c => isCCCandidate (pyStrip c)) with
  | some c =>
    let p := parse_content_header (pyStrip c)
    if p.content_code != "" then some p else none
  | none => none

def isThreeDigits (s : String) : Bool := s.length == 3 && s.data.all Char.isDigit

/-- First cell of a row that is exactly a three-digit number (a colorway). -/
def rowColorwayNum (row : List String) : Option String :=
  row.findSome? (fun cell =>
    let cs := pyStrip cell
    if isThreeDigits cs then some cs else none)

/-- The row loop of `extract_content_codes`, carrying the current block. -/
def contentLoop : Option CEntry → List (String × CEntry) → List (List String) → List (String × CEntry)
  | _, res, [] => res
  | cur, res, row :: rows =>
    match rowCodeCell row with
    | some p => contentLoop (some p) res rows
    | none =>
      match cur with
      | none => contentLoop none res rows
      | some e =>
        match rowColorwayNum row with
        | some n => contentLoop (some e) (dset res n e) rows
        | none => contentLoop (some e) res rows

/-- `extract_content_codes`. -/
def extract_content_codes (df : Table) : List (String × CEntry) :=
  if df.cols.isEmpty || df.rows.isEmpty then []
  else contentLoop (headerBlock df.cols) [] df.rows

/-- Spec-side: the block in force at a row is the last block found in the
headers or in any earlier row. -/
def lastBlock (init : Option CEntry) (rows : List (List String)) : Option CEntry :=
  rows.foldl (fun cur r => match rowCodeCell r with | some p => some p | none => cur) init

/-- Spec-side row processing: a row carrying a new block contributes no
colorway entry; any other row naming a colorway is assigned the block in
force before it (none at all if no block has been found yet). -/
def contentSpecGo (init : Option CEntry) (pre : List (List String)) (res : List (String × CEntry)) :
    List (List String) → List (String × CEntry)
  | [] => res
  | row :: rows =>
    match rowCodeCell row with
    | some _ => contentSpecGo init (pre ++ [row]) res rows
    | none =>
      match lastBlock init pre with
      | none => contentSpecGo init (pre ++ [row]) res rows
      | some e =>
        match rowColorwayNum row with
        | some n => contentSpecGo init (pre ++ [row]) (dset res n e) rows
        | none => contentSpecGo init (pre ++ [row]) res rows

def contentSpec (df : Table) : List (String × CEntry) :=
  if df.cols.isEmpty || df.rows.isEmpty then []
  else contentSpecGo (headerBlock df.cols) [] [] df.rows

theorem lastBlock_append (init : Option CEntry) (pre : List (List String)) (r : List (List String)) :
    lastBlock init (pre ++ r) = lastBlock (lastBlock init pre) r := by
  simp [lastBlock, List.foldl_append]

theorem contentLoop_eq_spec (rows : List (List String)) (init : Option CEntry)
    (pre : List (List String)) (res : List (String × CEntry)) :
    contentLoop (lastBlock init pre) res rows = contentSpecGo init pre res rows := by
  induction rows generalizing pre res with
  | nil => rfl
  | cons row rows ih =>
    have hstep : lastBlock init (pre ++ [row]) =
        (match rowCodeCell row with | some p => some p | none => lastBlock init pre) := by
      rw [lastBlock_append]
      rfl
    rcases hcc : rowCodeCell row with _ | p
    · rw [hcc] at hstep
      simp only [contentLoop, contentSpecGo, hcc]
      rcases hlb : lastBlock init pre with _ | e
      · rw [hlb] at hstep
        have h2 := ih (pre ++ [row]) res
        rw [hstep] at h2
        exact h2
      · rw [hlb] at hstep
        rcases hnum : rowColorwayNum row with _ | n
        · simp only [hnum]
          have h2 := ih (pre ++ [row]) res
          rw [hstep] at h2
          exact h2
        · simp only [hnum]
          have h2 := ih (pre ++ [row]) (dset res n e)
          rw [hstep] at h2
          exact h2
    · rw [hcc] at hstep
      simp only [contentLoop, contentSpecGo, hcc]
      have h2 := ih (pre ++ [row]) res
      rw [hstep] at h2
      exact h2

/-! #### extract_care_codes -/

structure CareEntry where
  care_code : String
  english_instructions : String
deriving DecidableEq, Repr

def fallbackInstructions : String :=
  "Hand Wash Cold, Do Not Bleach, Dry Flat, Do Not Wring or Twist, Reshape, Do Not Iron, Drycleanable"

/-- The care-code / English-instructions search of `extract_care_codes`:
scan for the first column whose name contains `Care Code`, parse the code out
of that name, and pull the instructions from the second column of the first
row whose cell in the care-code column is `english` (case-insensitively). -/
def careSearch (df : Table) : String × String :=
  match df.cols.find? (fun c => strContains c "Care Code") with
  | none => (KNOWN_CARE_CODE, "")
  | some col =>
    let code := parse_care_header col
    let instrCol : Option String := if df.cols.length > 1 then some (df.cols.getD 1 "") else none
    let instr := match df.rows.findSome? (fun row =>
        if pyLower (pyStrip (rowGetD df.cols row col)) == "english" then
          match instrCol with
          | some ic => some (pyStrip (rowGetD df.cols row ic))
          | none => none
        else none) with
      | some s => s
      | none => ""
    (code, instr)

/-- The single entry shared by every colorway key. -/
def careEntryOf (df : Table) : CareEntry :=
  let s := careSearch df
  { care_code := s.1
    english_instructions := if s.2 == "" then fallbackInstructions else s.2 }

/-- One row of the key-assignment loop in `extract_care_codes`. -/
def careAssignRow (cols : List String) (entry : CareEntry) (numCol nameCol : String)
    (res : List (String × CareEntry)) (row : List String) : List (String × CareEntry) :=
  let key := pyStrip (pyOr (if numCol != "" then rowGetD cols row numCol else "")
                           (if nameCol != "" then rowGetD cols row nameCol else ""))
  if key != "" && isThreeDigits key then dset res key entry else res

/-- `extract_care_codes`. -/
def extract_care_codes (df : Table) : List (String × CareEntry) :=
  if df.cols.isEmpty || df.rows.isEmpty then []
  else
    let entry := careEntryOf df
    let colsLower := df.cols.foldl (fun d c => dset d (pyLower c) c) []
    let numCol := pyOr ((dget colsLower "color way number").getD "") ((dget colsLower "colorway number").getD "")
    let nameCol := pyOr ((dget colsLower "color way name").getD "") ((dget colsLower "colorway name").getD "")
    if numCol != "" || nameCol != "" then
      df.rows.foldl (careAssignRow df.cols entry numCol nameCol) []
    else []

/-! ### parsers/color_bom.py -/

structure Component where
  material_code : String
  description : String
  usage : String
  colorways : List (String × String)
deriving DecidableEq, Repr

structure ColorBomLookup where
  SAP_codes : List (String × String)
  components : List (String × Component)
deriving DecidableEq, Repr

/-- Python `str.isdigit()` (ASCII digits). -/
def pyIsDigitStr (s : String) : Bool := !s.data.isEmpty && s.data.all Char.isDigit

/-- The material-code scan over the bracket-normalised `Details` tokens:
first whitespace token that, stripped of `() ,;`, is a 3–6 digit number. -/
def matCodeFromDetails (details : String) : String :=
  let toks := pySplitWs (replaceCh ']' ')' (replaceCh '[' '(' details))
  match toks.findSome? (fun tok =>
    let t := stripCharsBy (fun c => c == '(' || c == ')' || c == ' ' || c == ',' || c == ';') tok
    if pyIsDigitStr t && 3 ≤ t.length && t.length ≤ 6 then some t else none) with
  | some t => t
  | none => ""

/-- `extract_color_bom_lookup`. -/
def extract_color_bom_lookup (df : Table) : ColorBomLookup :=
  if df.cols.isEmpty || df.rows.isEmpty then ⟨[], []⟩
  else
    let cols := df.cols.map pyStrip
    let colorwayCols := cols.filter (fun c => strContains c "-" && pyIsDigitStr (beforeFirstDash c))
    let sapRow : Option (List String) :=
      if cols.contains "Component" then
        df.rows.find? (fun r => strContains (pyLower (rowGetD cols r "Component")) "sap material code")
      else none
    let sap := match sapRow with
      | some r => colorwayCols.foldl (fun d cw =>
          let v := pyStrip (rowGetD cols r cw)
          if v != "" then dset d cw v else d) []
      | none => []
    let componentCol := if cols.contains "Component" then "Component" else cols.headD ""
    let detailsCol : Option String := if cols.contains "Details" then some "Details" else none
    let usageCol : Option String := if cols.contains "Usage" then some "Usage" else none
    let comps := df.rows.foldl (fun d r =>
      let comp := pyStrip (rowGetD cols r componentCol)
      if comp == "" || strContains (pyLower comp) "sap material code" then d
      else
        let details := match detailsCol with | some c => pyStrip (rowGetD cols r c) | none => ""
        let usage := match usageCol with | some c => pyStrip (rowGetD cols r c) | none => ""
        let cws := colorwayCols.foldl (fun m cw => dset m cw (pyStrip (rowGetD cols r cw))) []
        dset d comp
          { material_code := matCodeFromDetails details
            description := details
            usage := usage
            colorways := cws }) []
    ⟨sap, comps⟩

/-! ### parsers/pdf_parser.py — page loop and supplier lookup -/

/-- A raw extracted table: rows of possibly-`None` cells. -/
def RawTable := List (List (Option String))

/-- A page: `extract_text()` may return `None`; `extract_tables()` may raise
(modelled as `none`). -/
structure Page where
  text : Option String
  tables : Option (List RawTable)

def cleanCell : Option String → String
  | none => ""
  | some s => cleanCellS s

/-- `_detect_section`. -/
def detect_section (pageText : String) : String :=
  let txt := pyLower pageText
  if strContains txt "color bom" then "color_bom"
  else if strContains txt "colorless bom" then "colorless_bom"
  else if strContains txt "color specification" then "color_specification"
  else if strContains txt "costing" then
    (if strContains txt "summary" && !(strContains txt "material") then "costing_summary"
     else "costing_detail")
  else if strContains txt "care report" then "care_report"
  else if strContains txt "content report" then "content_report"
  else if strContains txt "measurement" then "measurements"
  else if strContains txt "sales sample" then "sales_sample"
  else if strContains txt "hangtag" then "hangtag_report"
  else "unknown"

def afterFirstColon (s : String) : String := String.mk ((s.data.dropWhile (fun c => c != ':')).drop 1)

def metaLabels : List (String × String) :=
  [("style", "Style"), ("season", "Season"), ("design", "Design"), ("production_lo", "Production LO")]

/-- `_extract_metadata`. -/
def extract_metadata (firstPageText : String) : List (String × String) :=
  let meta := (pySplitLines firstPageText).foldl (fun meta line =>
    let line := pyStrip line
    metaLabels.foldl (fun meta kl =>
      if leadsWith (pyLower kl.2).data (pyLower line).data && strContains line ":" then
        dset meta kl.1 (pyStrip (afterFirstColon line))
      else meta) meta) []
  let meta := dsetdefault meta "style" "CL2880"
  let meta := dsetdefault meta "season" "F25"
  let meta := dsetdefault meta "design" "F4WA209264"
  dsetdefault meta "production_lo" "Vietnam"

/-- `row_strs` of a raw row: non-`None` cells, cleaned and lowercased. -/
def optRowStrs (row : List (Option String)) : List String :=
  (row.filterMap id).map (fun s => pyLower (cleanCellS s))

/-- `_is_costing_detail_table`. -/
def is_costing_detail_table (tbl : RawTable) : Bool :=
  if (tbl : List (List (Option String))).isEmpty then false
  else ((tbl : List (List (Option String))).take 3).any (fun row =>
    let rs := optRowStrs row
    (rs.contains "material" && rs.contains "supplier") || (rs.contains "component" && rs.contains "material"))

/-- Index of the header row (has both `material` and `supplier`) among the
first three rows of a costing-detail table, defaulting to 0. -/
def costingHeaderIdx (tbl : RawTable) : Nat :=
  match ((tbl : List (List (Option String))).take 3).findIdx? (fun row =>
    let rs := optRowStrs row
    rs.contains "material" && rs.contains "supplier") with
  | some i => i
  | none => 0

structure ParseState where
  costingRows : List (List String)
  costingHeader : Option (List String)
  sections : List (String × List RawTable)

/-- `tables_by_section.setdefault(section, []); tables_by_section[section].append(tbl)`. -/
def dsetAppend (d : List (String × List RawTable)) (k : String) (t : RawTable) :
    List (String × List RawTable) :=
  match dget d k with
  | some ts => dset d k (ts ++ [t])
  | none => d ++ [(k, [t])]

/-- Per-table processing inside `parse_bom_pdf`'s page loop. -/
def processTable (sect : String) (st : ParseState) (tbl : RawTable) : ParseState :=
  if (tbl : List (List (Option String))).isEmpty then st
  else if sect == "costing_detail" && is_costing_detail_table tbl then
    let hidx := costingHeaderIdx tbl
    let cleanedHeader := ((tbl : List (List (Option String))).getD hidx []).map cleanCell
    let header := match st.costingHeader with | some h => h | none => cleanedHeader
    let numCols := header.length
    let newRows := ((tbl : List (List (Option String))).drop (hidx + 1)).map
      (fun row => padTrim numCols (row.map cleanCell))
    { st with costingHeader := some header, costingRows := st.costingRows ++ newRows }
  else if sect == "costing_detail" then
    match st.costingHeader with
    | none => st
    | some header =>
      let numCols := header.length
      let newRows := (tbl : List (List (Option String))).foldl (fun acc row =>
        let cleaned := row.map cleanCell
        if countNonEmpty cleaned < 3 then acc
        else
          let firstCell := cleaned.headD ""
          if strContains (pyLower firstCell) "costing bom" || strContains (pyLower firstCell) "line slot" then acc
          else acc ++ [padTrim numCols cleaned]) []
      { st with costingRows := st.costingRows ++ newRows }
  else
    { st with sections := dsetAppend st.sections sect tbl }

/-- Tables of a page: a failed or empty extraction falls back to one
single-column table made of the page's non-empty text lines. -/
def pageTables (p : Page) : List RawTable :=
  let ts := p.tables.getD []
  if ts.isEmpty then
    let lines := ((pySplitLines (p.text.getD "")).map pyStrip).filter (fun l => l != "")
    if lines.isEmpty then [] else [lines.map (fun l => [some l])]
  else ts

def processPage (st : ParseState) (p : Page) : ParseState :=
  (pageTables p).foldl (processTable (detect_section (p.text.getD ""))) st

/-- Rows of a generic section: all rows of all its tables, cleaned and
padded/trimmed to the width of the first row seen. -/
def buildSectionRows (tables : List RawTable) : List (List String) :=
  (tables.foldl (fun st t =>
    (t : List (List (Option String))).foldl (fun st2 row =>
      let cleaned := row.map cleanCell
      match st2.1 with
      | none => (some cleaned.length, st2.2 ++ [cleaned])
      | some n => (some n, st2.2 ++ [padTrim n cleaned])) st)
    ((none : Option Nat), ([] : List (List String)))).2

def buildSectionDf (tables : List RawTable) : Table := rowsToDf (buildSectionRows tables)

/-- The stitched costing-detail DataFrame (empty when no header or no rows
were collected). -/
def buildCostingDf (header : Option (List String)) (rows : List (List String)) : Table :=
  match header with
  | some h =>
    if !h.isEmpty && !rows.isEmpty then
      ⟨buildHeader h, rows.filter (fun r => !(r.all (fun c => c == "")))⟩
    else ⟨[], []⟩
  | none => ⟨[], []⟩

/-- Fuel-based worker for `lcMergeStep`: every call shortens the list, so
fuel equal to the list length never runs out. -/
def lcMergeStepF : Nat → List Char → List Char
  | fuel + 1, a :: ' ' :: b :: rest =>
    if isLowAsc a && isLowAsc b then a :: b :: lcMergeStepF fuel rest
    else a :: lcMergeStepF fuel (' ' :: b :: rest)
  | fuel + 1, a :: rest => a :: lcMergeStepF fuel rest
  | _, l => l

/-- `re.sub(r'([a-z]) ([a-z])', ...)`: merge a lowercase letter, a space and a
lowercase letter, continuing after each replacement. -/
def lcMergeStep (l : List Char) : List Char := lcMergeStepF l.length l

def lcMergeLoop : Nat → List Char → List Char
  | 0, l => l
  | n + 1, l =>
    let t := lcMergeStep l
    if t == l then l else lcMergeLoop n t

/-- `_clean_supplier` in pdf_parser: iterate the lowercase merge to a fixed
point (each change shortens the string, so the length bounds the fuel). -/
def clean_supplier (s : String) : String := String.mk (lcMergeLoop s.data.length s.data)

/-- One row of `_build_supplier_lookup`'s loop: the first 3–6-digit token of
the material cell (or, when the material cell has none, of the first
description-named column holding one) registers the row's cleaned supplier
under that single token; otherwise the row registers nothing. -/
def supplierRegisterRow (cols : List String) (materialCol supplierCol : String)
    (lk : List (String × String)) (row : List String) : List (String × String) :=
  let mat := pyStrip (rowGetD cols row materialCol)
  let supp := clean_supplier (pyStrip (rowGetD cols row supplierCol))
  let valid := supp != "" && !(["", "nan", "none"].contains (pyLower supp))
  match (digitTokens 3 6 mat).head? with
  | some code => if valid then dset lk code supp else lk
  | none =>
    let descCols := cols.filter (fun c => strContains c "description")
    match descCols.findSome? (fun dc => (digitTokens 3 6 (pyStrip (rowGetD cols row dc))).head?) with
    | some code => if valid then dset lk code supp else lk
    | none => lk

/-- `_build_supplier_lookup`: `{material_code: supplier_name}` from the
costing-detail table. -/
def _build_supplier_lookup (df : Table) : List (String × String) :=
  if df.cols.isEmpty || df.rows.isEmpty then []
  else
    let cols := df.cols.map (fun c => pyStrip (pyLower c))
    let materialCol := pyOr (if cols.contains "material" then "material" else "")
                            ((cols.find? (fun c => strContains c "material")).getD "")
    let supplierCol := pyOr (if cols.contains "supplier" then "supplier" else "")
                            ((cols.find? (fun c => strContains c "supplier" || strContains c "vendor")).getD "")
    if materialCol != "" && supplierCol != "" then
      df.rows.foldl (supplierRegisterRow cols materialCol supplierCol) []
    else []

def knownSectionKeys : List String :=
  ["color_bom", "colorless_bom", "color_specification", "costing_summary", "costing_detail",
   "care_report", "content_report", "measurements", "sales_sample", "hangtag_report"]

structure ParsedDoc where
  metadata : List (String × String)
  sections : List (String × Table)
  supplier_lookup : List (String × String)

/-- `parse_bom_pdf`: a zero-page document raises `ValueError("PDF has no
pages")`; otherwise every known section key is present (defaulted to an empty
table) and the supplier lookup is built from the costing detail. -/
def parse_bom_pdf (pages : List Page) : Except String ParsedDoc :=
  if pages.isEmpty then .error "PDF has no pages"
  else
    let firstText := (pages.headD ⟨none, none⟩).text.getD ""
    let st := pages.foldl processPage ⟨[], none, []⟩
    let sections0 := [("costing_detail", buildCostingDf st.costingHeader st.costingRows)]
    let sections1 := st.sections.foldl (fun d kv => dset d kv.1 (buildSectionDf kv.2)) sections0
    let sections2 := knownSectionKeys.foldl (fun d k => dsetdefault d k ⟨[], []⟩) sections1
    .ok { metadata := extract_metadata firstText
          sections := sections2
          supplier_lookup := _build_supplier_lookup ((dget sections2 "costing_detail").getD ⟨[], []⟩) }

/-! ### validators/filler.py -/

def NEW_COLUMNS : List String :=
  ["Main Label", "Main Label Color", "Main Label Supplier",
   "Additional Main Label", "Additional Main Label Color",
   "Care Label", "Care Label Color", "Care Label Supplier",
   "Content Code", "TP FC", "Care Code",
   "Hangtag", "Hangtag Supplier",
   "Hangtag (RFID)", "Hangtag (RFID) Supplier",
   "RFID Sticker", "RFID Sticker Supplier",
   "UPC Sticker (Polybag)", "UPC Sticker Supplier",
   "Validation Status"]

/-- `_nv`: empty / null-like values become the `N/A` sentinel. -/
def _nv (val : String) : String :=
  let s := pyStrip val
  if s == "" || ["none", "nan", ""].contains (pyLower s) then "N/A" else s

/-- A match of `\b([A-Z]{1,3}) ([A-Z]{1,3})\b` at the head of `l` (which the
caller only attempts at a word boundary): a complete uppercase run of length
1–3, one space, and a complete uppercase run of length 1–3 followed by a
non-word character or the end.  Returns the two runs and the rest. -/
def upTryMatch (l : List Char) : Option (List Char × List Char × List Char) :=
  let u1 := l.takeWhile isUpAsc
  if 1 ≤ u1.length ∧ u1.length ≤ 3 then
    match l.dropWhile isUpAsc with
    | ' ' :: r2 =>
      let u2 := r2.takeWhile isUpAsc
      if 1 ≤ u2.length ∧ u2.length ≤ 3 then
        let r3 := r2.dropWhile isUpAsc
        if r3.isEmpty || !(isWordCh (r3.headD ' ')) then some (u1, u2, r3) else none
      else none
    | _ => none
  else none

theorem upTryMatch_decomp (l : List Char) (m : List Char × List Char × List Char)
    (h : upTryMatch l = some m) :
    l = m.1 ++ ' ' :: (m.2.1 ++ m.2.2) ∧ 1 ≤ m.1.length ∧ 1 ≤ m.2.1.length := by
  unfold upTryMatch at h
  split at h
  · rename_i x r2 hdrop
    dsimp only at h
    split at h
    · rename_i hl1
      split at h
      · rename_i hl2
        split at h
        · cases h
          refine ⟨?_, hl1.1, hl2.1⟩
          conv_lhs => rw [← List.takeWhile_append_dropWhile (p := isUpAsc) (l := l)]
          rw [hdrop]
          simp [List.takeWhile_append_dropWhile]
        · exact absurd h (by simp)
      · exact absurd h (by simp)
    · exact absurd h (by simp)
  · simp at h

theorem upTryMatch_shrink (l : List Char) (m : List Char × List Char × List Char)
    (h : upTryMatch l = some m) : m.2.2.length < l.length := by
  obtain ⟨hdec, h1, h2⟩ := upTryMatch_decomp l m h
  have := congrArg List.length hdec
  simp at this
  omega

/-- One pass of `re.sub(r'\b([A-Z]{1,3}) ([A-Z]{1,3})\b', r'\1\2', s)` on
`fuel ≥ l.length`: scan left to right, a match may only start where the
previous character is not a word character, and scanning continues after each
replacement. -/
def fixStepF : Nat → Bool → List Char → List Char
  | 0, _, l => l
  | fuel + 1, pw, l =>
    match l with
    | [] => []
    | c :: rest =>
      if pw then c :: fixStepF fuel (isWordCh c) rest
      else
        match upTryMatch (c :: rest) with
        | some m => m.1 ++ m.2.1 ++ fixStepF fuel true m.2.2
        | none => c :: fixStepF fuel (isWordCh c) rest

def fixStep (pw : Bool) (l : List Char) : List Char := fixStepF l.length pw l

theorem fixStepF_irrel : ∀ (f1 : Nat), ∀ (f2 : Nat) (pw : Bool) (l : List Char),
    l.length ≤ f1 → l.length ≤ f2 → fixStepF f1 pw l = fixStepF f2 pw l := by
  intro f1
  induction f1 with
  | zero =>
    intro f2 pw l h1 _
    have : l = [] := by cases l <;> simp_all
    subst this
    cases f2 <;> rfl
  | succ f1 ih =>
    intro f2 pw l h1 h2
    cases l with
    | nil => cases f2 <;> rfl
    | cons c rest =>
      cases f2 with
      | zero => simp at h2
      | succ f2 =>
        simp only [List.length_cons] at h1 h2
        simp only [fixStepF]
        cases pw with
        | true =>
          simp only [reduceIte]
          rw [ih f2 (isWordCh c) rest (by omega) (by omega)]
        | false =>
          simp only [Bool.false_eq_true, reduceIte]
          rcases hm : upTryMatch (c :: rest) with _ | m
          · dsimp only
            rw [ih f2 (isWordCh c) rest (by omega) (by omega)]
          · dsimp only
            have hlt := upTryMatch_shrink _ _ hm
            simp only [List.length_cons] at hlt
            rw [ih f2 true m.2.2 (by omega) (by omega)]

theorem fixStep_nil (pw : Bool) : fixStep pw [] = [] := rfl

theorem fixStep_true (c : Char) (rest : List Char) :
    fixStep true (c :: rest) = c :: fixStep (isWordCh c) rest := rfl

theorem fixStep_false_some (c : Char) (rest : List Char) (m : List Char × List Char × List Char)
    (hm : upTryMatch (c :: rest) = some m) :
    fixStep false (c :: rest) = m.1 ++ m.2.1 ++ fixStep true m.2.2 := by
  have hlt := upTryMatch_shrink _ _ hm
  simp only [List.length_cons] at hlt
  show fixStepF (rest.length + 1) false (c :: rest) = _
  simp only [fixStepF, Bool.false_eq_true, reduceIte, hm]
  rw [fixStepF_irrel rest.length m.2.2.length true m.2.2 (by omega) (le_refl _)]
  rfl

theorem fixStep_false_none (c : Char) (rest : List Char)
    (hm : upTryMatch (c :: rest) = none) :
    fixStep false (c :: rest) = c :: fixStep (isWordCh c) rest := by
  show fixStepF (rest.length + 1) false (c :: rest) = _
  simp only [fixStepF, Bool.false_eq_true, reduceIte, hm]
  rfl

def fixLoop : Nat → List Char → List Char
  | 0, l => l
  | n + 1, l =>
    let t := fixStep false l
    if t == l then l else fixLoop n t

/-- `_fix_sup`: iterate the uppercase merge until the string stops changing
(each change removes a space, so the length bounds the fuel), then strip. -/
def _fix_sup (s : String) : String :=
  if s == "" then s else pyStrip (String.mk (fixLoop s.data.length s.data))

/-! #### `_fix_sup` is idempotent

The loop in `_fix_sup` runs `fixStep` to a fixed point, so re-running
`_fix_sup` on its own output changes nothing; the only subtlety is the final
`strip`, and stripping surrounding whitespace neither creates nor destroys a
match of the uppercase-merge pattern. -/

theorem fixStep_length_le_aux : ∀ (n : Nat) (pw : Bool) (l : List Char), l.length ≤ n →
    (fixStep pw l).length ≤ l.length := by
  intro n
  induction n with
  | zero =>
    intro pw l hl
    have : l = [] := by cases l <;> simp_all
    subst this
    simp [fixStep_nil]
  | succ n ih =>
    intro pw l hl
    cases l with
    | nil => simp [fixStep_nil]
    | cons c rest =>
      simp only [List.length_cons] at hl
      cases pw with
      | true =>
        rw [fixStep_true]
        have := ih (isWordCh c) rest (by omega)
        simp only [List.length_cons]
        omega
      | false =>
        rcases hm : upTryMatch (c :: rest) with _ | m
        · rw [fixStep_false_none _ _ hm]
          have := ih (isWordCh c) rest (by omega)
          simp only [List.length_cons]
          omega
        · rw [fixStep_false_some _ _ _ hm]
          have hlt := upTryMatch_shrink _ _ hm
          simp only [List.length_cons] at hlt
          have h2 := ih true m.2.2 (by omega)
          have hdec := (upTryMatch_decomp _ _ hm).1
          have hlen := congrArg List.length hdec
          simp only [List.length_cons, List.length_append] at hlen ⊢
          omega

theorem fixStep_length_le (pw : Bool) (l : List Char) : (fixStep pw l).length ≤ l.length :=
  fixStep_length_le_aux l.length pw l (le_refl _)

theorem fixStep_eq_or_lt_aux : ∀ (n : Nat) (pw : Bool) (l : List Char), l.length ≤ n →
    fixStep pw l = l ∨ (fixStep pw l).length < l.length := by
  intro n
  induction n with
  | zero =>
    intro pw l hl
    have : l = [] := by cases l <;> simp_all
    subst this
    left
    simp [fixStep_nil]
  | succ n ih =>
    intro pw l hl
    cases l with
    | nil => left; simp [fixStep_nil]
    | cons c rest =>
      simp only [List.length_cons] at hl
      cases pw with
      | true =>
        rw [fixStep_true]
        rcases ih (isWordCh c) rest (by omega) with h | h
        · left; rw [h]
        · right; simp only [List.length_cons]; omega
      | false =>
        rcases hm : upTryMatch (c :: rest) with _ | m
        · rw [fixStep_false_none _ _ hm]
          rcases ih (isWordCh c) rest (by omega) with h | h
          · left; rw [h]
          · right; simp only [List.length_cons]; omega
        · rw [fixStep_false_some _ _ _ hm]
          right
          have hle := fixStep_length_le true m.2.2
          have hdec := (upTryMatch_decomp _ _ hm).1
          have hlen := congrArg List.length hdec
          simp only [List.length_cons, List.length_append] at hlen ⊢
          omega

theorem fixStep_eq_or_lt (pw : Bool) (l : List Char) :
    fixStep pw l = l ∨ (fixStep pw l).length < l.length :=
  fixStep_eq_or_lt_aux l.length pw l (le_refl _)

theorem fixLoop_of_fix (n : Nat) (l : List Char) (h : fixStep false l = l) : fixLoop n l = l := by
  cases n with
  | zero => rfl
  | succ n => simp [fixLoop, h]

/-- With fuel at least the length, the loop reaches a genuine fixed point of
`fixStep`. -/
theorem fixLoop_isFix : ∀ (n : Nat) (l : List Char), l.length ≤ n →
    fixStep false (fixLoop n l) = fixLoop n l := by
  intro n
  induction n with
  | zero =>
    intro l hl
    have : l = [] := by cases l <;> simp_all
    subst this
    simp [fixLoop, fixStep_nil]
  | succ n ih =>
    intro l hl
    simp only [fixLoop]
    by_cases ht : fixStep false l == l
    · simp only [ht, reduceIte]
      simpa using ht
    · simp only [ht, Bool.false_eq_true, reduceIte]
      apply ih
      rcases fixStep_eq_or_lt false l with h | h
      · exact absurd (by simp [h]) ht
      · omega

def wsAll (ws : List Char) : Prop := ∀ c ∈ ws, isWsCh c = true

theorem isWs_not_up {c : Char} (h : isWsCh c = true) : isUpAsc c = false := by
  simp only [isWsCh, Bool.or_eq_true, beq_iff_eq] at h
  have h2 : c = ' ' ∨ c = '\t' ∨ c = '\n' ∨ c = '\r' := by tauto
  rcases h2 with h2 | h2 | h2 | h2 <;> subst h2 <;> decide

theorem isWs_not_word {c : Char} (h : isWsCh c = true) : isWordCh c = false := by
  simp only [isWsCh, Bool.or_eq_true, beq_iff_eq] at h
  have h2 : c = ' ' ∨ c = '\t' ∨ c = '\n' ∨ c = '\r' := by tauto
  rcases h2 with h2 | h2 | h2 | h2 <;> subst h2 <;> decide

theorem takeWhile_append_nomatch (p : Char → Bool) (l ws : List Char)
    (hws : ∀ c ∈ ws, p c = false) : (l ++ ws).takeWhile p = l.takeWhile p := by
  induction l with
  | nil =>
    simp only [List.nil_append, List.takeWhile_nil]
    cases ws with
    | nil => rfl
    | cons w ws2 => simp [List.takeWhile_cons, hws w (by simp)]
  | cons c l ih =>
    by_cases hc : p c
    · simp [List.takeWhile_cons, hc, ih]
    · simp [List.takeWhile_cons, hc]

theorem dropWhile_append_nomatch (p : Char → Bool) (l ws : List Char)
    (hws : ∀ c ∈ ws, p c = false) : (l ++ ws).dropWhile p = l.dropWhile p ++ ws := by
  induction l with
  | nil =>
    simp only [List.nil_append, List.dropWhile_nil]
    cases ws with
    | nil => rfl
    | cons w ws2 => simp [List.dropWhile_cons, hws w (by simp)]
  | cons c l ih =>
    by_cases hc : p c
    · simp [List.dropWhile_cons, hc, ih]
    · simp [List.dropWhile_cons, hc]

/-- Appending trailing whitespace does not change which uppercase-merge match
(if any) starts at the current position: the rest of the match simply carries
the whitespace along. -/
theorem upTryMatch_append_ws (l ws : List Char) (hws : wsAll ws) :
    upTryMatch (l ++ ws) = (upTryMatch l).map (fun m => (m.1, m.2.1, m.2.2 ++ ws)) := by
  have hnup : ∀ c ∈ ws, isUpAsc c = false := fun c hc => isWs_not_up (hws c hc)
  unfold upTryMatch
  rw [takeWhile_append_nomatch _ _ _ hnup, dropWhile_append_nomatch _ _ _ hnup]
  by_cases h1 : 1 ≤ (l.takeWhile isUpAsc).length ∧ (l.takeWhile isUpAsc).length ≤ 3
  · simp only [h1, and_self, reduceIte, if_pos h1]
    rcases hd : l.dropWhile isUpAsc with _ | ⟨c, r2⟩
    · simp only [List.nil_append]
      cases ws with
      | nil => rfl
      | cons w ws2 =>
        by_cases hw : w = ' '
        · subst hw
          have hu2 : ws2.takeWhile isUpAsc = [] := by
            have := takeWhile_append_nomatch isUpAsc [] ws2 (fun c hc => hnup c (by simp [hc]))
            simpa using this
          simp [hu2]
        · have : (match (w :: ws2 : List Char) with
              | ' ' :: r2 =>
                let u2 := r2.takeWhile isUpAsc
                if 1 ≤ u2.length ∧ u2.length ≤ 3 then
                  let r3 := r2.dropWhile isUpAsc
                  if (r3.isEmpty || !(isWordCh (r3.headD ' '))) = true then
                    some (l.takeWhile isUpAsc, u2, r3)
                  else none
                else none
              | _ => none) = (none : Option (List Char × List Char × List Char)) := by
            split
            · rename_i heq
              cases heq
              exact absurd rfl hw
            · rfl
          rw [this]
          rfl
    · by_cases hc : c = ' '
      · subst hc
        simp only [List.cons_append]
        have hws2 : ∀ x ∈ ws, isUpAsc x = false := hnup
        rw [takeWhile_append_nomatch _ _ _ hws2, dropWhile_append_nomatch _ _ _ hws2]
        by_cases h2 : 1 ≤ (r2.takeWhile isUpAsc).length ∧ (r2.takeWhile isUpAsc).length ≤ 3
        · simp only [h2, and_self, if_pos h2]
          rcases hr3 : r2.dropWhile isUpAsc with _ | ⟨x, xs⟩
          · simp only [List.nil_append]
            cases ws with
            | nil => simp
            | cons w ws2 =>
              have hword : isWordCh w = false := isWs_not_word (hws w (by simp))
              simp [hword]
          · simp only [List.cons_append]
            by_cases hx : isWordCh x
            · simp [hx]
            · simp [hx]
        · simp [h2]
      · have hmatch : ∀ (tail : List Char), (match (c :: tail : List Char) with
            | ' ' :: r2 =>
              let u2 := r2.takeWhile isUpAsc
              if 1 ≤ u2.length ∧ u2.length ≤ 3 then
                let r3 := r2.dropWhile isUpAsc
                if (r3.isEmpty || !(isWordCh (r3.headD ' '))) = true then
                  some (l.takeWhile isUpAsc, u2, r3)
                else none
              else none
            | _ => none) = (none : Option (List Char × List Char × List Char)) := by
          intro tail
          split
          · rename_i heq
            cases heq
            exact absurd rfl hc
          · rfl
        simp only [List.cons_append]
        rw [hmatch (r2 ++ ws), hmatch r2]
        rfl
  · simp [h1]

/-- All-whitespace strings are untouched by one merge pass. -/
theorem fixStep_ws (ws : List Char) (hws : wsAll ws) (pw : Bool) : fixStep pw ws = ws := by
  induction ws generalizing pw with
  | nil => simp [fixStep_nil]
  | cons w ws2 ih =>
    have hwrd : isWordCh w = false := isWs_not_word (hws w (by simp))
    have hup : isUpAsc w = false := isWs_not_up (hws w (by simp))
    have ih2 := ih (fun c hc => hws c (by simp [hc]))
    cases pw with
    | true =>
      rw [fixStep_true, hwrd, ih2]
    | false =>
      have hnone : upTryMatch (w :: ws2) = none := by
        unfold upTryMatch
        have : (w :: ws2).takeWhile isUpAsc = [] := by simp [List.takeWhile_cons, hup]
        simp [this]
      rw [fixStep_false_none _ _ hnone, hwrd, ih2]

theorem fixStep_append_ws_aux : ∀ (n : Nat) (pw : Bool) (l ws : List Char), l.length ≤ n →
    wsAll ws → fixStep pw (l ++ ws) = fixStep pw l ++ ws := by
  intro n
  induction n with
  | zero =>
    intro pw l ws hl hws
    have : l = [] := by cases l <;> simp_all
    subst this
    simp [fixStep_nil, fixStep_ws ws hws]
  | succ n ih =>
    intro pw l ws hl hws
    cases l with
    | nil => simp [fixStep_nil, fixStep_ws ws hws]
    | cons c rest =>
      simp only [List.length_cons] at hl
      simp only [List.cons_append]
      cases pw with
      | true =>
        rw [fixStep_true, fixStep_true]
        rw [ih (isWordCh c) rest ws (by omega) hws]
        simp
      | false =>
        have hmap := upTryMatch_append_ws (c :: rest) ws hws
        rcases hm : upTryMatch (c :: rest) with _ | m
        · rw [hm] at hmap
          simp at hmap
          rw [fixStep_false_none _ _ hmap, fixStep_false_none _ _ hm]
          rw [ih (isWordCh c) rest ws (by omega) hws]
          simp
        · rw [hm] at hmap
          simp at hmap
          rw [fixStep_false_some _ _ _ hmap, fixStep_false_some _ _ _ hm]
          have hlt := upTryMatch_shrink _ _ hm
          simp only [List.length_cons] at hlt
          have hrec := ih true m.2.2 ws (by omega) hws
          rw [show ((m.1, m.2.1, m.2.2 ++ ws) : List Char × List Char × List Char).2.2
              = m.2.2 ++ ws from rfl]
          rw [hrec]
          simp

theorem fixStep_append_ws (pw : Bool) (l ws : List Char) (hws : wsAll ws) :
    fixStep pw (l ++ ws) = fixStep pw l ++ ws :=
  fixStep_append_ws_aux l.length pw l ws (le_refl _) hws

/-- Leading whitespace passes through a merge pass unchanged (each whitespace
character is a non-word character, so the boundary state stays `false`). -/
theorem fixStep_ws_append (ws l : List Char) (hws : wsAll ws) :
    fixStep false (ws ++ l) = ws ++ fixStep false l := by
  induction ws with
  | nil => simp
  | cons w ws2 ih =>
    have hwrd : isWordCh w = false := isWs_not_word (hws w (by simp))
    have hup : isUpAsc w = false := isWs_not_up (hws w (by simp))
    have hnone : upTryMatch (w :: (ws2 ++ l)) = none := by
      unfold upTryMatch
      have : (w :: (ws2 ++ l)).takeWhile isUpAsc = [] := by simp [List.takeWhile_cons, hup]
      simp [this]
    simp only [List.cons_append]
    rw [fixStep_false_none _ _ hnone, hwrd]
    rw [ih (fun c hc => hws c (by simp [hc]))]

theorem takeWhile_wsAll (l : List Char) : wsAll (l.takeWhile isWsCh) := by
  intro c hc
  exact List.mem_takeWhile_imp hc

theorem trimLead_decomp (l : List Char) : l = l.takeWhile isWsCh ++ trimLeadWs l := by
  rw [trimLeadWs, List.takeWhile_append_dropWhile]

theorem trimTrail_decomp (l : List Char) :
    l = trimTrailWs l ++ (l.reverse.takeWhile isWsCh).reverse := by
  rw [trimTrailWs]
  conv_lhs => rw [← List.reverse_reverse l]
  conv_lhs => rw [← List.takeWhile_append_dropWhile (p := isWsCh) (l := l.reverse)]
  rw [List.reverse_append]

theorem reverse_takeWhile_wsAll (l : List Char) : wsAll (l.reverse.takeWhile isWsCh).reverse := by
  intro c hc
  rw [List.mem_reverse] at hc
  exact List.mem_takeWhile_imp hc

theorem stepfix_trimLead (l : List Char) (h : fixStep false l = l) :
    fixStep false (trimLeadWs l) = trimLeadWs l := by
  have hdec := trimLead_decomp l
  have hstep := fixStep_ws_append (l.takeWhile isWsCh) (trimLeadWs l) (takeWhile_wsAll l)
  rw [← hdec] at hstep
  rw [h] at hstep
  conv_lhs at hstep => rw [hdec]
  exact List.append_cancel_left hstep.symm

theorem stepfix_trimTrail (l : List Char) (h : fixStep false l = l) :
    fixStep false (trimTrailWs l) = trimTrailWs l := by
  have hdec := trimTrail_decomp l
  have hstep := fixStep_append_ws false (trimTrailWs l) (l.reverse.takeWhile isWsCh).reverse
    (reverse_takeWhile_wsAll l)
  rw [← hdec] at hstep
  rw [h] at hstep
  conv_lhs at hstep => rw [hdec]
  exact List.append_cancel_right hstep.symm

theorem dropWhile_idem (p : Char → Bool) (l : List Char) :
    (l.dropWhile p).dropWhile p = l.dropWhile p := by
  induction l with
  | nil => rfl
  | cons c l ih =>
    by_cases hc : p c
    · simp [List.dropWhile_cons, hc, ih]
    · simp [List.dropWhile_cons, hc]

theorem trimLead_idem (l : List Char) : trimLeadWs (trimLeadWs l) = trimLeadWs l :=
  dropWhile_idem isWsCh l

theorem trimTrail_idem (l : List Char) : trimTrailWs (trimTrailWs l) = trimTrailWs l := by
  simp only [trimTrailWs, List.reverse_reverse]
  rw [dropWhile_idem]

theorem trimLead_eq_self_of_fix (x : List Char) (hx : trimLeadWs x = x) :
    trimLeadWs (trimTrailWs x) = trimTrailWs x := by
  rcases ht : trimTrailWs x with _ | ⟨c, t⟩
  · rfl
  · have hpre : trimTrailWs x <+: x := by
      rw [trimTrailWs]
      have hsuf : x.reverse.dropWhile isWsCh <:+ x.reverse := List.dropWhile_suffix _
      have := hsuf.reverse
      simpa using this
    rw [ht] at hpre
    obtain ⟨t2, hx2⟩ := hpre
    have hxc : x = c :: (t ++ t2) := by rw [← hx2]; rfl
    have hcws : isWsCh c = false := by
      by_contra hc
      simp only [Bool.not_eq_false] at hc
      rw [hxc] at hx
      simp only [trimLeadWs, List.dropWhile_cons, hc, reduceIte] at hx
      have := congrArg List.length hx
      have hle := (List.dropWhile_suffix (l := t ++ t2) isWsCh).sublist.length_le
      simp only [List.length_cons] at this
      omega
    simp [trimLeadWs, List.dropWhile_cons, hcws]

theorem fix_sup_fixed (l : List Char) (hfix : fixStep false l = l) :
    _fix_sup (pyStrip (String.mk l)) = pyStrip (String.mk l) := by
  set y := pyStrip (String.mk l) with hy
  by_cases h0 : y = ""
  · rw [h0]
    decide
  · have h0b : (y == "") = false := by simp [h0]
    unfold _fix_sup
    simp only [h0b, Bool.false_eq_true, reduceIte]
    have hydata : y.data = trimTrailWs (trimLeadWs l) := rfl
    have hfix2 : fixStep false y.data = y.data := by
      rw [hydata]
      exact stepfix_trimTrail _ (stepfix_trimLead _ hfix)
    rw [fixLoop_of_fix _ _ hfix2]
    have e1 : trimLeadWs y.data = y.data := by
      rw [hydata]
      exact trimLead_eq_self_of_fix (trimLeadWs l) (trimLead_idem l)
    have e2 : trimTrailWs (trimLeadWs y.data) = y.data := by
      rw [e1, hydata]
      exact trimTrail_idem _
    show String.mk (trimTrailWs (trimLeadWs y.data)) = y
    rw [e2]

/-- `_fix_sup` is idempotent. -/
theorem fix_sup_idem (s : String) : _fix_sup (_fix_sup s) = _fix_sup s := by
  by_cases hs : s = ""
  · subst hs
    decide
  · have hs2 : (s == "") = false := by simp [hs]
    have hform : _fix_sup s = pyStrip (String.mk (fixLoop s.data.length s.data)) := by
      unfold _fix_sup
      simp [hs2]
    rw [hform]
    exact fix_sup_fixed _ (fixLoop_isFix _ _ (le_refl _))

def emptyComponent : Component := ⟨"", "", "", []⟩

/-- `_get_material_code_for_comp`: direct field, then description, then any
colorway value. -/
def get_material_code_for_comp (comp : Component) : String :=
  let mc := pyStrip comp.material_code
  if mc != "" && !(["", "N/A", "nan", "none"].contains mc) then mc
  else
    let desc := pyStrip comp.description
    let fromDesc := if desc != "" then extract_material_code desc else ""
    if fromDesc != "" then fromDesc
    else
      match comp.colorways.findSome? (fun p =>
        let found := extract_material_code p.2
        if found != "" then some found else none) with
      | some f => f
      | none => ""

/-- `code.lstrip("0")`. -/
def stripZeros (s : String) : String := String.mk (s.data.dropWhile (fun c => c == '0'))

/-- `_cell_contains_code`. -/
def cellContainsCode (code codeStripped cell : String) : Bool :=
  let s := pyStrip cell
  if s == "" || ["nan", "none", ""].contains (pyLower s) then false
  else if strContains s code then true
  else if codeStripped != "" && strContains s codeStripped then true
  else
    let digits := String.mk (s.data.filter Char.isDigit)
    digits == code || (codeStripped != "" && digits == codeStripped)

def validSupplierStr (v : String) : Bool := v != "" && !(["", "nan", "none"].contains (pyLower v))

/-- `_find_supplier`: scan every row, looking in every non-supplier cell for
the code (direct, zero-stripped or digits-only), and return the row's fixed
supplier string when it is valid. -/
def _find_supplier (costing : Table) (code0 : String) : String :=
  if costing.cols.isEmpty || costing.rows.isEmpty || code0 == "" || code0 == "N/A" then "N/A"
  else
    let code := pyStrip code0
    let codeStripped := stripZeros code
    match costing.cols.find? (fun col =>
        strContains (pyLower col) "supplier" || strContains (pyLower col) "vendor") with
    | none => "N/A"
    | some supCol =>
      match costing.rows.findSome? (fun row =>
        if costing.cols.any (fun col =>
            col != supCol && cellContainsCode code codeStripped (rowGetD costing.cols row col)) then
          let sup := _fix_sup (pyStrip (rowGetD costing.cols row supCol))
          if validSupplierStr sup then some sup else none
        else none) with
      | some sup => sup
      | none => "N/A"

/-- `resolve_supplier`: cached dict first, then the full scan, caching a hit. -/
def resolve_supplier (cache : List (String × String)) (costing : Table) (matCode : String) :
    String × List (String × String) :=
  if matCode == "" || matCode == "N/A" then ("N/A", cache)
  else
    let cached := (dget cache matCode).getD ""
    if validSupplierStr cached then (_fix_sup cached, cache)
    else
      let found := _find_supplier costing matCode
      if found != "N/A" then (found, dset cache matCode found) else (found, cache)

/-- Fuel-based worker for `splitOnL`: each step consumes at least one
character, so fuel equal to the list length never runs out. -/
def splitOnGo (sep : List Char) : Nat → List Char → List Char → List (List Char)
  | _, acc, [] => [acc.reverse]
  | 0, acc, l => [acc.reverse ++ l]
  | fuel + 1, acc, c :: rest =>
    if leadsWith sep (c :: rest) then
      acc.reverse :: splitOnGo sep fuel [] ((c :: rest).drop sep.length)
    else
      splitOnGo sep fuel (c :: acc) rest

/-- `str.split(sep)`: split on every non-overlapping occurrence of `sep`,
scanning left to right (the whole string when `sep` never occurs). -/
def splitOnL (sep l : List Char) : List (List Char) :=
  if sep.isEmpty then [l] else splitOnGo sep l.length [] l

def beforeFirstSep (s sep : String) : String :=
  String.mk (((splitOnL sep.data s.data).headD s.data))

def badColorVals : List String := ["none", "nan", "stock", "artwork", ""]

/-- `_lookup_in_df` inside `get_color_from_spec`. -/
def lookupColorInDf (df? : Option Table) (componentName matchedCw cwPre : String) : String :=
  match df? with
  | none => ""
  | some df =>
    if df.cols.isEmpty || df.rows.isEmpty then ""
    else
      let compCol := df.cols.headD ""
      let lookupName := if strContains componentName " - " then
          pyStrip (beforeFirstSep componentName " - ")
        else componentName
      match df.rows.find? (fun r => rowGetD df.cols r compCol == lookupName) with
      | none => ""
      | some row =>
        let cwCols := (df.cols.drop 1).filter (fun c => c != "" && !(leadsWith "col_".data c.data))
        let v1 := if cwCols.contains matchedCw then
            let v := pyStrip (rowGetD df.cols row matchedCw)
            if v != "" && !(badColorVals.contains (pyLower v)) then v else ""
          else ""
        if v1 != "" then v1
        else
          match cwCols.findSome? (fun col =>
            if pyStrip (beforeFirstDash col) == cwPre then
              let v := pyStrip (rowGetD df.cols row col)
              if v != "" && !(badColorVals.contains (pyLower v)) then some v else none
            else none) with
          | some v => v
          | none => ""

/-- `get_color_from_spec`: color_bom first, color_specification as fallback. -/
def get_color_from_spec (colorBom : Table) (colorSpec : Option Table)
    (componentName matchedCw : String) : String :=
  if componentName == "" then ""
  else
    let cwPre := if strContains matchedCw "-" then pyStrip (beforeFirstDash matchedCw) else matchedCw
    let r := lookupColorInDf (some colorBom) componentName matchedCw cwPre
    if r != "" then r else lookupColorInDf colorSpec componentName matchedCw cwPre

/-- The start index of the LAST occurrence of `sep` in `l` (rightmost
substring match, as `str.rsplit(sep, 1)` uses). -/
def lastSubIdx (sep : List Char) : List Char → Option Nat
  | [] => none
  | c :: rest =>
    match lastSubIdx sep rest with
    | some j => some (j + 1)
    | none => if leadsWith sep (c :: rest) then some 0 else none

/-- `split_comp`: split a `"<name> - <id>"` selection on its LAST `" - "`
(`str.rsplit(" - ", 1)`), stripping both parts. -/
def split_comp (sel : String) : String × String :=
  if sel != "" && strContains sel " - " then
    match lastSubIdx " - ".data sel.data with
    | some i => (pyStrip (String.mk (sel.data.take i)),
                 pyStrip (String.mk (sel.data.drop (i + 3))))
    | none => (sel, "")
  else (sel, "")

structure BomData where
  style : String
  color_bom : Table
  color_specification : Option Table
  care_report : Table
  content_report : Table
  costing_detail : Table
  supplier_lookup : List (String × String)
  selected_main_label_comp : String
  selected_care_label_comp : String

/-- The indexes `validate_and_fill` derives once from `bom_data` before the
row loop. -/
structure Ctx where
  components : List (String × Component)
  availableCw : List String
  careCodes : List (String × CareEntry)
  contentCodes : List (String × CEntry)
  costing : Table
  bomStyle : String
  colorBom : Table
  colorSpec : Option Table
  selMain : String
  selCare : String
  supplier0 : List (String × String)

def mkCtx (bd : BomData) : Ctx :=
  let lk := extract_color_bom_lookup bd.color_bom
  { components := lk.components
    availableCw := lk.SAP_codes.map Prod.fst
    careCodes := extract_care_codes bd.care_report
    contentCodes := extract_content_codes bd.content_report
    costing := bd.costing_detail
    bomStyle := pyUpper (pyStrip bd.style)
    colorBom := bd.color_bom
    colorSpec := bd.color_specification
    selMain := bd.selected_main_label_comp
    selCare := bd.selected_care_label_comp
    supplier0 := bd.supplier_lookup }

def get_code (ctx : Ctx) (compKey : String) : String :=
  get_material_code_for_comp ((dget ctx.components compKey).getD emptyComponent)

def get_cw_val (ctx : Ctx) (compKey matchedCw : String) : String :=
  let comp := (dget ctx.components compKey).getD emptyComponent
  _nv ((dget comp.colorways matchedCw).getD "")

def get_care (ctx : Ctx) (matchedCw cwNum : String) : String :=
  match (dget ctx.careCodes matchedCw).orElse (fun _ => dget ctx.careCodes cwNum) with
  | some e => _nv e.care_code
  | none => _nv ""

def get_content_code (ctx : Ctx) (matchedCw cwNum : String) : String :=
  match (dget ctx.contentCodes matchedCw).orElse (fun _ => dget ctx.contentCodes cwNum) with
  | some e => _nv e.content_code
  | none => _nv ""

def get_content_shell (ctx : Ctx) (matchedCw cwNum : String) : String :=
  match (dget ctx.contentCodes matchedCw).orElse (fun _ => dget ctx.contentCodes cwNum) with
  | some e => _nv e.shell
  | none => _nv ""

/-- The colorway number prefix of a matched colorway key. -/
def cwNumOf (matchedCw : String) : String :=
  if strContains matchedCw "-" then pyStrip (beforeFirstDash matchedCw)
  else if strContains matchedCw " " then (pySplitWs matchedCw).headD matchedCw
  else matchedCw

/-- A single quote character (for the unknown-colorway message). -/
def sq : String := String.singleton (Char.ofNat 39)

def rget (row : List (String × String)) (c : String) : String := (dget row c).getD ""

/-- `for col in NEW_COLUMNS: if col not in result.columns: result[col] = ""`,
seen from a single row. -/
def addNewColumns (row : List (String × String)) : List (String × String) :=
  NEW_COLUMNS.foldl (fun r col => if (dget r col).isSome then r else r ++ [(col, "")]) row

def styleMismatch (bomStyle buyerStyle : String) : Bool :=
  buyerStyle != "" && bomStyle != "" && buyerStyle != bomStyle &&
  !(strContains bomStyle buyerStyle) && !(strContains buyerStyle bomStyle)

/-- The body of `validate_and_fill`'s row loop: one comparison row in, the
filled row and the updated supplier cache out. -/
def processRow (ctx : Ctx) (cache : List (String × String)) (row : List (String × String)) :
    List (String × String) × List (String × String) :=
  let buyerStyle := pyUpper (pyStrip (rget row "Buyer Style Number"))
  if styleMismatch ctx.bomStyle buyerStyle then
    (dset row "Validation Status"
      ("❌ Error: Style mismatch (" ++ buyerStyle ++ " vs " ++ ctx.bomStyle ++ ")"), cache)
  else
    let colorRaw := pyStrip (rget row "Color/Option")
    match normalize_colorway colorRaw ctx.availableCw with
    | none =>
      (dset row "Validation Status" ("❌ Error: Unknown colorway " ++ sq ++ colorRaw ++ sq), cache)
    | some matchedCw =>
      let cwNum := cwNumOf matchedCw
      let mc := split_comp ctx.selMain
      let cc := split_comp ctx.selCare
      let mainCode := if mc.1 != "" then get_code ctx mc.1 else "N/A"
      let careCode := if cc.1 != "" then get_code ctx cc.1 else "N/A"
      let mainColor := get_color_from_spec ctx.colorBom ctx.colorSpec mc.1 matchedCw
      let careColor := get_color_from_spec ctx.colorBom ctx.colorSpec cc.1 matchedCw
      let r1 := dset row "Main Label" (pyOr mc.2 (pyOr mainCode "N/A"))
      let r2 := dset r1 "Main Label Color" (pyOr mainColor "N/A")
      let s1 := resolve_supplier cache ctx.costing mainCode
      let r3 := dset r2 "Main Label Supplier" s1.1
      let logoCode := get_code ctx "Label Logo 1"
      let logoColor := get_color_from_spec ctx.colorBom ctx.colorSpec "Label Logo 1" matchedCw
      let r4 := dset r3 "Additional Main Label" (pyOr logoCode "N/A")
      let r5 := dset r4 "Additional Main Label Color" (pyOr logoColor "N/A")
      let r6 := dset r5 "Care Label" (pyOr cc.2 (pyOr careCode "N/A"))
      let r7 := dset r6 "Care Label Color" (pyOr careColor "N/A")
      let s2 := resolve_supplier s1.2 ctx.costing careCode
      let r8 := dset r7 "Care Label Supplier" s2.1
      let r9 := dset r8 "Content Code" (get_content_code ctx matchedCw cwNum)
      let r10 := dset r9 "TP FC" (get_content_shell ctx matchedCw cwNum)
      let r11 := dset r10 "Care Code" (get_care ctx matchedCw cwNum)
      let htCode := get_code ctx "Hangtag Package Part"
      let htCw := get_cw_val ctx "Hangtag Package Part" matchedCw
      let r12 := dset r11 "Hangtag" (pyOr htCode (pyOr (extract_id_only htCw) "N/A"))
      let s3 := resolve_supplier s2.2 ctx.costing htCode
      let r13 := dset r12 "Hangtag Supplier" s3.1
      let rfidDesc := ((dget ctx.components "Hangtag Package Part").getD emptyComponent).description
      let rfidCode0 := extract_material_code rfidDesc
      let rfidCode := if rfidCode0 == "" then extract_material_code htCw else rfidCode0
      let r14 := dset r13 "Hangtag (RFID)" (pyOr rfidCode (pyOr (extract_id_only rfidDesc) "N/A"))
      let s4 := resolve_supplier s3.2 ctx.costing (pyOr rfidCode htCode)
      let r15 := dset r14 "Hangtag (RFID) Supplier" s4.1
      let r16 := dset r15 "RFID Sticker" (pyOr rfidCode (pyOr (extract_id_only rfidDesc) "N/A"))
      let s5 := resolve_supplier s4.2 ctx.costing (pyOr rfidCode htCode)
      let r17 := dset r16 "RFID Sticker Supplier" s5.1
      let upcCode := get_code ctx "Packaging 3"
      let upcCw := get_cw_val ctx "Packaging 3" matchedCw
      let r18 := dset r17 "UPC Sticker (Polybag)" (pyOr upcCode (pyOr (extract_id_only upcCw) "N/A"))
      let s6 := resolve_supplier s5.2 ctx.costing upcCode
      let r19 := dset r18 "UPC Sticker Supplier" s6.1
      let notFound := NEW_COLUMNS.dropLast.countP (fun c => rget r19 c == "N/A")
      let status := if notFound == 0 then "✅ Validated"
        else if notFound < NEW_COLUMNS.length - 1 then "⚠️ Partial"
        else "❌ Error: No BOM data matched"
      (dset r19 "Validation Status" status, s6.2)

/-- `validate_and_fill`: add the output columns, then run the row loop with
the shared supplier cache threaded through. -/
def validate_and_fill (comparison : List (List (String × String))) (bd : BomData) :
    List (List (String × String)) :=
  let ctx := mkCtx bd
  (comparison.foldl (fun st row =>
    let pr := processRow ctx st.2 (addNewColumns row)
    (st.1 ++ [pr.1], pr.2))
    (([], bd.supplier_lookup) : List (List (String × String)) × List (String × String))).1

/-! #### The supplier cache never changes row results

`resolve_supplier` consults the shared cache, but a cache hit for a key the
initial lookup knew returns the same fixed string each time, and entries added
during the run hold exactly the deterministic full-scan result (`_fix_sup` is
idempotent, so re-fixing a cached hit is harmless).  Hence each row's output
is a pure function of the row and the indexes. -/

def validGet (cache : List (String × String)) (k : String) : Option String :=
  let v := (dget cache k).getD ""
  if validSupplierStr v then some v else none

/-- Caches reachable from the initial supplier lookup `c0`: every key resolves
as it did initially, or (for keys the initial lookup missed) holds the cached
full-scan result. -/
def cacheInv (c0 : List (String × String)) (costing : Table)
    (cache : List (String × String)) : Prop :=
  ∀ k, validGet cache k = validGet c0 k ∨
    (validGet c0 k = none ∧ validGet cache k = some (_find_supplier costing k) ∧
     _find_supplier costing k ≠ "N/A")

theorem cacheInv_refl (c0 : List (String × String)) (costing : Table) : cacheInv c0 costing c0 :=
  fun _ => Or.inl rfl

/-- What `resolve_supplier` computes, independent of the evolving cache. -/
def pureResolve (c0 : List (String × String)) (costing : Table) (k : String) : String :=
  if k == "" || k == "N/A" then "N/A"
  else match validGet c0 k with
    | some v => _fix_sup v
    | none => _find_supplier costing k

theorem find_supplier_valid (costing : Table) (k : String) :
    _find_supplier costing k = "N/A" ∨
    (validSupplierStr (_find_supplier costing k) = true ∧
     _fix_sup (_find_supplier costing k) = _find_supplier costing k) := by
  unfold _find_supplier
  split
  · left; rfl
  · split
    · left; rfl
    · dsimp only
      split
      · rename_i sup hsup
        right
        refine findSome_prop _ _ (fun b => validSupplierStr b = true ∧ _fix_sup b = b) ?_ sup hsup
        intro row b hb
        split at hb
        · split at hb
          · rename_i hvalid
            cases hb
            exact ⟨hvalid, fix_sup_idem _⟩
          · exact absurd hb (by simp)
        · exact absurd hb (by simp)
      · left; rfl

theorem resolve_supplier_pure (c0 : List (String × String)) (costing : Table)
    (cache : List (String × String)) (k : String) (h : cacheInv c0 costing cache) :
    (resolve_supplier cache costing k).1 = pureResolve c0 costing k ∧
    cacheInv c0 costing (resolve_supplier cache costing k).2 := by
  unfold resolve_supplier pureResolve
  cases hor : (k == "" || k == "N/A") with
  | true =>
    simp only [hor, reduceIte]
    exact ⟨by trivial, h⟩
  | false =>
    simp only [hor, Bool.false_eq_true, reduceIte]
    cases hv : validSupplierStr ((dget cache k).getD "") with
    | true =>
      have hvg : validGet cache k = some ((dget cache k).getD "") := by
        unfold validGet
        simp [hv]
      simp only [hv, reduceIte]
      refine ⟨?_, h⟩
      rcases h k with h1 | ⟨h1, h2, h3⟩
      · rw [hvg] at h1
        rw [← h1]
      · rw [hvg] at h2
        have hcf : (dget cache k).getD "" = _find_supplier costing k := by
          injection h2
        rw [h1, hcf]
        rcases find_supplier_valid costing k with hna | ⟨_, hfix⟩
        · exact absurd hna h3
        · exact hfix
    | false =>
      have hvg : validGet cache k = none := by
        unfold validGet
        simp [hv]
      have hc0 : validGet c0 k = none := by
        rcases h k with h1 | ⟨_, h2, _⟩
        · rw [← h1, hvg]
        · rw [hvg] at h2
          exact absurd h2.symm (by simp)
      simp only [hv, Bool.false_eq_true, reduceIte]
      rw [hc0]
      constructor
      · split <;> rfl
      · split
        · rename_i hne
          have hne2 : _find_supplier costing k ≠ "N/A" := by simpa using hne
          intro q
          by_cases hq : q = k
          · subst hq
            right
            refine ⟨hc0, ?_, hne2⟩
            unfold validGet
            rw [dget_dset_self]
            rcases find_supplier_valid costing q with hna | ⟨hval, _⟩
            · exact absurd hna hne2
            · simp [hval]
          · have : dget (dset cache k (_find_supplier costing k)) q = dget cache q :=
              dget_dset_ne _ _ _ _ hq
            have hsame : validGet (dset cache k (_find_supplier costing k)) q = validGet cache q := by
              unfold validGet
              rw [this]
            rw [hsame]
            exact h q
        · exact h

/-- The row body with the supplier cache replaced by its pure resolution. -/
def pureProcessRow (ctx : Ctx) (row : List (String × String)) : List (String × String) :=
  let buyerStyle := pyUpper (pyStrip (rget row "Buyer Style Number"))
  if styleMismatch ctx.bomStyle buyerStyle then
    dset row "Validation Status"
      ("❌ Error: Style mismatch (" ++ buyerStyle ++ " vs " ++ ctx.bomStyle ++ ")")
  else
    let colorRaw := pyStrip (rget row "Color/Option")
    match normalize_colorway colorRaw ctx.availableCw with
    | none =>
      dset row "Validation Status" ("❌ Error: Unknown colorway " ++ sq ++ colorRaw ++ sq)
    | some matchedCw =>
      let cwNum := cwNumOf matchedCw
      let mc := split_comp ctx.selMain
      let cc := split_comp ctx.selCare
      let mainCode := if mc.1 != "" then get_code ctx mc.1 else "N/A"
      let careCode := if cc.1 != "" then get_code ctx cc.1 else "N/A"
      let mainColor := get_color_from_spec ctx.colorBom ctx.colorSpec mc.1 matchedCw
      let careColor := get_color_from_spec ctx.colorBom ctx.colorSpec cc.1 matchedCw
      let r1 := dset row "Main Label" (pyOr mc.2 (pyOr mainCode "N/A"))
      let r2 := dset r1 "Main Label Color" (pyOr mainColor "N/A")
      let r3 := dset r2 "Main Label Supplier" (pureResolve ctx.supplier0 ctx.costing mainCode)
      let logoCode := get_code ctx "Label Logo 1"
      let logoColor := get_color_from_spec ctx.colorBom ctx.colorSpec "Label Logo 1" matchedCw
      let r4 := dset r3 "Additional Main Label" (pyOr logoCode "N/A")
      let r5 := dset r4 "Additional Main Label Color" (pyOr logoColor "N/A")
      let r6 := dset r5 "Care Label" (pyOr cc.2 (pyOr careCode "N/A"))
      let r7 := dset r6 "Care Label Color" (pyOr careColor "N/A")
      let r8 := dset r7 "Care Label Supplier" (pureResolve ctx.supplier0 ctx.costing careCode)
      let r9 := dset r8 "Content Code" (get_content_code ctx matchedCw cwNum)
      let r10 := dset r9 "TP FC" (get_content_shell ctx matchedCw cwNum)
      let r11 := dset r10 "Care Code" (get_care ctx matchedCw cwNum)
      let htCode := get_code ctx "Hangtag Package Part"
      let htCw := get_cw_val ctx "Hangtag Package Part" matchedCw
      let r12 := dset r11 "Hangtag" (pyOr htCode (pyOr (extract_id_only htCw) "N/A"))
      let r13 := dset r12 "Hangtag Supplier" (pureResolve ctx.supplier0 ctx.costing htCode)
      let rfidDesc := ((dget ctx.components "Hangtag Package Part").getD emptyComponent).description
      let rfidCode0 := extract_material_code rfidDesc
      let rfidCode := if rfidCode0 == "" then extract_material_code htCw else rfidCode0
      let r14 := dset r13 "Hangtag (RFID)" (pyOr rfidCode (pyOr (extract_id_only rfidDesc) "N/A"))
      let r15 := dset r14 "Hangtag (RFID) Supplier"
        (pureResolve ctx.supplier0 ctx.costing (pyOr rfidCode htCode))
      let r16 := dset r15 "RFID Sticker" (pyOr rfidCode (pyOr (extract_id_only rfidDesc) "N/A"))
      let r17 := dset r16 "RFID Sticker Supplier"
        (pureResolve ctx.supplier0 ctx.costing (pyOr rfidCode htCode))
      let upcCode := get_code ctx "Packaging 3"
      let upcCw := get_cw_val ctx "Packaging 3" matchedCw
      let r18 := dset r17 "UPC Sticker (Polybag)" (pyOr upcCode (pyOr (extract_id_only upcCw) "N/A"))
      let r19 := dset r18 "UPC Sticker Supplier" (pureResolve ctx.supplier0 ctx.costing upcCode)
      let notFound := NEW_COLUMNS.dropLast.countP (fun c => rget r19 c == "N/A")
      let status := if notFound == 0 then "✅ Validated"
        else if notFound < NEW_COLUMNS.length - 1 then "⚠️ Partial"
        else "❌ Error: No BOM data matched"
      dset r19 "Validation Status" status

theorem processRow_pure (ctx : Ctx) (cache : List (String × String))
    (row : List (String × String)) (h : cacheInv ctx.supplier0 ctx.costing cache) :
    (processRow ctx cache row).1 = pureProcessRow ctx row ∧
    cacheInv ctx.supplier0 ctx.costing (processRow ctx cache row).2 := by
  unfold processRow pureProcessRow
  cases hsm : styleMismatch ctx.bomStyle (pyUpper (pyStrip (rget row "Buyer Style Number"))) with
  | true =>
    simp only [hsm, reduceIte]
    exact ⟨by trivial, h⟩
  | false =>
    simp only [hsm, Bool.false_eq_true, reduceIte]
    rcases hnc : normalize_colorway (pyStrip (rget row "Color/Option")) ctx.availableCw with _ | cw
    · exact ⟨rfl, h⟩
    · dsimp only
      obtain ⟨e1, h1⟩ := resolve_supplier_pure ctx.supplier0 ctx.costing cache _ h
      rw [e1]
      obtain ⟨e2, h2⟩ := resolve_supplier_pure ctx.supplier0 ctx.costing _ _ h1
      rw [e2]
      obtain ⟨e3, h3⟩ := resolve_supplier_pure ctx.supplier0 ctx.costing _ _ h2
      rw [e3]
      obtain ⟨e4, h4⟩ := resolve_supplier_pure ctx.supplier0 ctx.costing _ _ h3
      rw [e4]
      obtain ⟨e5, h5⟩ := resolve_supplier_pure ctx.supplier0 ctx.costing _ _ h4
      rw [e5]
      obtain ⟨e6, h6⟩ := resolve_supplier_pure ctx.supplier0 ctx.costing _ _ h5
      rw [e6]
      exact ⟨rfl, h6⟩

/-- The row loop appends one pure result per row, in order, for any cache
satisfying the invariant. -/
theorem validateLoop_pure (ctx : Ctx) (rows : List (List (String × String)))
    (acc : List (List (String × String))) (cache : List (String × String))
    (h : cacheInv ctx.supplier0 ctx.costing cache) :
    (rows.foldl (fun st row =>
      let pr := processRow ctx st.2 (addNewColumns row)
      (st.1 ++ [pr.1], pr.2)) (acc, cache)).1
    = acc ++ rows.map (fun row => pureProcessRow ctx (addNewColumns row)) := by
  induction rows generalizing acc cache with
  | nil => simp
  | cons row rows ih =>
    simp only [List.foldl_cons, List.map_cons]
    obtain ⟨e, hinv⟩ := processRow_pure ctx cache (addNewColumns row) h
    rw [ih _ _ hinv]
    rw [e]
    simp

/-! ### Further shared lemmas -/

theorem dget_dset_cases {α : Type} (d : List (String × α)) (k q : String) (v e : α)
    (h : dget (dset d k v) q = some e) : (q = k ∧ e = v) ∨ dget d q = some e := by
  by_cases hq : q = k
  · subst hq
    rw [dget_dset_self] at h
    left
    refine ⟨rfl, ?_⟩
    injection h with h2
    exact h2.symm
  · right
    rw [dget_dset_ne _ _ _ _ hq] at h
    exact h

theorem dget_append {α : Type} (d1 d2 : List (String × α)) (q : String) :
    dget (d1 ++ d2) q = match dget d1 q with | some v => some v | none => dget d2 q := by
  induction d1 with
  | nil => simp [dget]
  | cons p d1 ih =>
    by_cases hp : p.1 == q
    · simp [dget, hp]
    · simp [dget, hp, ih]

theorem dsetdefault_self_isSome {α : Type} (d : List (String × α)) (k : String) (v : α) :
    (dget (dsetdefault d k v) k).isSome := by
  unfold dsetdefault
  by_cases h : (dget d k).isSome
  · simp [h]
  · rw [if_neg h, dget_append]
    rcases hd : dget d k with _ | w
    · simp [dget]
    · simp [hd] at h

theorem dsetdefault_preserve {α : Type} (d : List (String × α)) (k q : String) (v : α)
    (h : (dget d q).isSome) : (dget (dsetdefault d k v) q).isSome := by
  unfold dsetdefault
  by_cases h2 : (dget d k).isSome
  · simp [h2, h]
  · rw [if_neg h2, dget_append]
    rcases hd : dget d q with _ | w
    · simp [hd] at h
    · simp

theorem fold_setdefault_preserve {α : Type} (keys : List String) (v : α) :
    ∀ (d : List (String × α)) (q : String), (dget d q).isSome →
    (dget (keys.foldl (fun d k => dsetdefault d k v) d) q).isSome := by
  induction keys with
  | nil => intro d q h; exact h
  | cons key keys ih =>
    intro d q h
    simp only [List.foldl_cons]
    exact ih _ _ (dsetdefault_preserve d key q v h)

theorem fold_setdefault_isSome {α : Type} (keys : List String) (v : α) :
    ∀ (d : List (String × α)) (k : String), k ∈ keys →
    (dget (keys.foldl (fun d k => dsetdefault d k v) d) k).isSome := by
  induction keys with
  | nil => intro d k h; simp at h
  | cons key keys ih =>
    intro d k hk
    simp only [List.foldl_cons]
    rcases List.mem_cons.mp hk with h | h
    · subst h
      exact fold_setdefault_preserve keys v _ _ (dsetdefault_self_isSome d k v)
    · exact ih _ _ h

theorem rget_dset_self (row : List (String × String)) (k v : String) :
    rget (dset row k v) k = v := by
  unfold rget
  rw [dget_dset_self]
  rfl

theorem rget_dset_ne (row : List (String × String)) (k q v : String) (h : q ≠ k) :
    rget (dset row k v) q = rget row q := by
  unfold rget
  rw [dget_dset_ne _ _ _ _ h]

theorem leadsWith_refl (l : List Char) : leadsWith l l = true := by
  induction l with
  | nil => rfl
  | cons c l ih => simp [leadsWith, ih]

theorem strContains_self (s : String) : strContains s s = true := by
  unfold strContains
  cases hd : s.data with
  | nil => simp [subAt]
  | cons c l =>
    unfold subAt
    rw [← hd, hd, leadsWith_refl]
    simp

theorem pyStrip_idem (s : String) : pyStrip (pyStrip s) = pyStrip s := by
  show String.mk (trimTrailWs (trimLeadWs (trimTrailWs (trimLeadWs s.data)))) = _
  rw [trimLead_eq_self_of_fix (trimLeadWs s.data) (trimLead_idem s.data), trimTrail_idem]
  rfl

theorem countP_ext {α : Type} (l : List α) (p q : α → Bool)
    (h : ∀ a ∈ l, p a = q a) : l.countP p = l.countP q := by
  induction l with
  | nil => rfl
  | cons a l ih =>
    rw [List.countP_cons, List.countP_cons, h a (by simp),
        ih (fun b hb => h b (by simp [hb]))]

theorem head?_mem {α : Type} {l : List α} {a : α} (h : l.head? = some a) : a ∈ l := by
  cases l with
  | nil => simp at h
  | cons x xs =>
    simp only [List.head?_cons, Option.some.injEq] at h
    subst h
    exact List.mem_cons_self x xs

/-- Every match of `\b(\d{m,n})\b` is a digit string of length in `[m, n]`. -/
theorem digitTokens_prop (m n : Nat) (s : String) :
    ∀ t ∈ digitTokens m n s,
      t.data.all Char.isDigit = true ∧ m ≤ t.length ∧ t.length ≤ n := by
  intro t ht
  unfold digitTokens at ht
  rw [List.mem_filter] at ht
  have h2 := ht.2
  simp only [Bool.and_eq_true, decide_eq_true_eq] at h2
  exact ⟨h2.1.1, h2.1.2, h2.2⟩

theorem dset_length_le {α : Type} (d : List (String × α)) (k : String) (v : α) :
    (dset d k v).length ≤ d.length + 1 := by
  induction d with
  | nil => simp [dset]
  | cons p d ih =>
    unfold dset
    by_cases hp : (p.1 == k) = true
    · simp [hp]
    · simp only [hp, Bool.false_eq_true, reduceIte, List.length_cons]
      omega

/-- A fold whose step adds at most one entry keeps the length bounded by the
number of steps. -/
theorem foldl_len {α β : Type} (f : List α → β → List α)
    (hf : ∀ lk row, (f lk row).length ≤ lk.length + 1) :
    ∀ (rows : List β) (lk : List α), (rows.foldl f lk).length ≤ lk.length + rows.length := by
  intro rows
  induction rows with
  | nil => intro lk; simp
  | cons r rows ih =>
    intro lk
    simp only [List.foldl_cons, List.length_cons]
    have h1 := ih (f lk r)
    have h2 := hf lk r
    omega

theorem supplierRegisterRow_length (cols : List String) (mc sc : String)
    (lk : List (String × String)) (row : List String) :
    (supplierRegisterRow cols mc sc lk row).length ≤ lk.length + 1 := by
  unfold supplierRegisterRow
  dsimp only
  rcases hm : (digitTokens 3 6 (pyStrip (rowGetD cols row mc))).head? with _ | code
  · dsimp only
    rcases hm2 : (cols.filter (fun c => strContains c "description")).findSome?
        (fun dc => (digitTokens 3 6 (pyStrip (rowGetD cols row dc))).head?) with _ | code2
    · dsimp only
      omega
    · dsimp only
      split
      · exact dset_length_le _ _ _
      · omega
  · dsimp only
    split
    · exact dset_length_le _ _ _
    · omega

/-- A key added by one row of the supplier-lookup loop is that row's single
3–6-digit candidate token; every other key was in the lookup already. -/
theorem supplierRegisterRow_keys (cols : List String) (mc sc : String)
    (lk : List (String × String)) (row : List String) (k v : String)
    (h : dget (supplierRegisterRow cols mc sc lk row) k = some v) :
    (k.data.all Char.isDigit = true ∧ 3 ≤ k.length ∧ k.length ≤ 6) ∨ dget lk k = some v := by
  unfold supplierRegisterRow at h
  dsimp only at h
  rcases hm : (digitTokens 3 6 (pyStrip (rowGetD cols row mc))).head? with _ | code
  · rw [hm] at h
    dsimp only at h
    rcases hm2 : (cols.filter (fun c => strContains c "description")).findSome?
        (fun dc => (digitTokens 3 6 (pyStrip (rowGetD cols row dc))).head?) with _ | code2
    · rw [hm2] at h
      dsimp only at h
      right
      exact h
    · rw [hm2] at h
      dsimp only at h
      split at h
      · rcases dget_dset_cases _ _ _ _ _ h with ⟨hk, hv⟩ | hold
        · subst hk
          left
          refine findSome_prop _ _
            (fun b => b.data.all Char.isDigit = true ∧ 3 ≤ b.length ∧ b.length ≤ 6) ?_ k hm2
          intro dc b hb
          exact digitTokens_prop 3 6 _ b (head?_mem hb)
        · right
          exact hold
      · right
        exact h
  · rw [hm] at h
    dsimp only at h
    split at h
    · rcases dget_dset_cases _ _ _ _ _ h with ⟨hk, hv⟩ | hold
      · subst hk
        left
        exact digitTokens_prop 3 6 _ k (head?_mem hm)
      · right
        exact hold
    · right
      exact h

/-- Fold form of `supplierRegisterRow_keys` over all rows. -/
theorem supplier_fold_keys (cols : List String) (mc sc : String) :
    ∀ (rows : List (List String)) (lk : List (String × String)),
    (∀ k v, dget lk k = some v →
      k.data.all Char.isDigit = true ∧ 3 ≤ k.length ∧ k.length ≤ 6) →
    ∀ k v, dget (rows.foldl (supplierRegisterRow cols mc sc) lk) k = some v →
      k.data.all Char.isDigit = true ∧ 3 ≤ k.length ∧ k.length ≤ 6 := by
  intro rows
  induction rows with
  | nil => intro lk h k v hk; exact h k v hk
  | cons row rows ih =>
    intro lk h k v hk
    simp only [List.foldl_cons] at hk
    refine ih _ ?_ k v hk
    intro q w hq
    rcases supplierRegisterRow_keys cols mc sc lk row q w hq with hp | hold
    · exact hp
    · exact h q w hold

/-- The status classification at the end of the row loop, read off a filled
row: count the output fields other than `Validation Status` still equal to
`N/A`; zero means validated, all nineteen means no BOM data matched, anything
in between is partial. -/
def statusOf (r : List (String × String)) : String :=
  if NEW_COLUMNS.dropLast.countP (fun c => rget r c == "N/A") == 0 then "✅ Validated"
  else if NEW_COLUMNS.dropLast.countP (fun c => rget r c == "N/A") < NEW_COLUMNS.length - 1
  then "⚠️ Partial"
  else "❌ Error: No BOM data matched"

theorem newCols_dropLast_ne_status : ∀ c ∈ NEW_COLUMNS.dropLast, c ≠ "Validation Status" := by
  decide

/-- Setting the status field does not change which of the other fields are
`N/A`. -/
theorem statusOf_dset_vs (R : List (String × String)) (S : String) :
    statusOf (dset R "Validation Status" S) = statusOf R := by
  have hc : NEW_COLUMNS.dropLast.countP
        (fun c => rget (dset R "Validation Status" S) c == "N/A")
      = NEW_COLUMNS.dropLast.countP (fun c => rget R c == "N/A") := by
    apply countP_ext
    intro c hcm
    rw [rget_dset_ne _ _ _ _ (newCols_dropLast_ne_status c hcm)]
  unfold statusOf
  rw [hc]

/-- The classification can be read off the returned row. -/
theorem statusOf_set (R : List (String × String)) :
    rget (dset R "Validation Status" (statusOf R)) "Validation Status"
      = statusOf (dset R "Validation Status" (statusOf R)) := by
  rw [rget_dset_self, statusOf_dset_vs]

/-- The colorway-resolved branch of the row loop: the returned row is a
19-field filled row `R` with `Validation Status` set to its classification,
and `R`'s `Main Label` is the main-label selection id, or else the selected
component's material code, or else `N/A`. -/
theorem processRow_cw_branch (ctx : Ctx) (cache row : List (String × String)) (mcw : String)
    (hstyle : styleMismatch ctx.bomStyle (pyUpper (pyStrip (rget row "Buyer Style Number"))) = false)
    (hcw : normalize_colorway (pyStrip (rget row "Color/Option")) ctx.availableCw = some mcw) :
    ∃ R, (processRow ctx cache row).1 = dset R "Validation Status" (statusOf R) ∧
      rget R "Main Label" = pyOr (split_comp ctx.selMain).2
        (pyOr (if ((split_comp ctx.selMain).1 != "") = true
               then get_code ctx (split_comp ctx.selMain).1 else "N/A") "N/A") := by
  unfold processRow
  dsimp only
  simp only [hstyle, Bool.false_eq_true, reduceIte]
  rw [hcw]
  dsimp only
  refine ⟨_, rfl, ?_⟩
  rw [rget_dset_ne _ "UPC Sticker Supplier" "Main Label" _ (by decide),
      rget_dset_ne _ "UPC Sticker (Polybag)" "Main Label" _ (by decide),
      rget_dset_ne _ "RFID Sticker Supplier" "Main Label" _ (by decide),
      rget_dset_ne _ "RFID Sticker" "Main Label" _ (by decide),
      rget_dset_ne _ "Hangtag (RFID) Supplier" "Main Label" _ (by decide),
      rget_dset_ne _ "Hangtag (RFID)" "Main Label" _ (by decide),
      rget_dset_ne _ "Hangtag Supplier" "Main Label" _ (by decide),
      rget_dset_ne _ "Hangtag" "Main Label" _ (by decide),
      rget_dset_ne _ "Care Code" "Main Label" _ (by decide),
      rget_dset_ne _ "TP FC" "Main Label" _ (by decide),
      rget_dset_ne _ "Content Code" "Main Label" _ (by decide),
      rget_dset_ne _ "Care Label Supplier" "Main Label" _ (by decide),
      rget_dset_ne _ "Care Label Color" "Main Label" _ (by decide),
      rget_dset_ne _ "Care Label" "Main Label" _ (by decide),
      rget_dset_ne _ "Additional Main Label Color" "Main Label" _ (by decide),
      rget_dset_ne _ "Additional Main Label" "Main Label" _ (by decide),
      rget_dset_ne _ "Main Label Supplier" "Main Label" _ (by decide),
      rget_dset_ne _ "Main Label Color" "Main Label" _ (by decide),
      rget_dset_self]

/-- BOM data for the end-to-end scenarios: style `CL2880`, one colorway key
`010-Black`, a content block `SRH / 55% Poly`, and a component index with no
entry for the selected main-label component `MainComp`. -/
def c3bd : BomData :=
  { style := "CL2880"
    color_bom := ⟨["Component", "010-Black"], [["SAP Material Code", "2092641010"]]⟩
    color_specification := none
    care_report := ⟨[], []⟩
    content_report := ⟨["CONTENT CODE: SRH Shell: 55% Poly", "x"], [["010", "Black"]]⟩
    costing_detail := ⟨[], []⟩
    supplier_lookup := []
    selected_main_label_comp := "MainComp"
    selected_care_label_comp := "" }

def c3row : List (String × String) := [("Buyer Style Number", "CL2880"), ("Color/Option", "010")]

def c4row : List (String × String) := [("Buyer Style Number", "XX9999"), ("Color/Option", "010")]

/-- A one-row costing-detail table whose material cell holds two numeric
tokens, the first with leading zeros. -/
def costingT2 : Table := ⟨["Material", "Supplier"], [["003287 555666", "Acme"]]⟩

/-! ## The claims -/

/-- **C5, counterexample.** The claim promises a numeric-prefix match whenever
the prefixes are *numerically* equal; the code compares the digit strings, so
`"10"` (prefix `10`) fails against `"010-Black"` (prefix `010`) even though
both denote the number 10 — the resolution falls through every strategy and
returns none. -/
theorem c5_counterexample :
    extractNumPre "10" = "10" ∧ extractNumPre "010-Black" = "010" ∧
    natOfDigits "10" = natOfDigits "010" ∧
    normalize_colorway "10" ["010-Black"] = none :=
  ⟨rfl, rfl, by decide, rfl⟩

set_option maxHeartbeats 1600000 in
/-- **C5, amended.** When no exact and no case-insensitive match exists and
the input has a non-empty leading numeric token, `normalize_colorway` returns
the first candidate whose leading numeric token is *string-equal* (not merely
numerically equal) to the input's token. -/
theorem c5_numeric_prefix_match (v : String) (cands : List String)
    (hv : v ≠ "")
    (hcands : cands ≠ [])
    (hsent : sentinelVals.contains (pyLower (pyStrip v)) = false)
    (hlen : 2 ≤ (pyStrip v).length)
    (hexact : cands.contains (pyStrip v) = false)
    (hci : cands.find? (fun cw => pyLower cw == pyLower (pyStrip v)) = none)
    (hnum : extractNumPre (pyStrip v) ≠ "")
    (hfound : (cands.find? (fun cw =>
      extractNumPre cw != "" && extractNumPre cw == extractNumPre (pyStrip v))).isSome) :
    normalize_colorway v cands = cands.find? (fun cw =>
      extractNumPre cw != "" && extractNumPre cw == extractNumPre (pyStrip v)) := by
  unfold normalize_colorway
  have hv2 : (v == "") = false := by simp [hv]
  have hc2 : cands.isEmpty = false := by
    cases cands with
    | nil => exact absurd rfl hcands
    | cons a l => rfl
  simp only [hv2, hc2, Bool.or_self, Bool.false_eq_true, reduceIte]
  rw [pyStrip_idem]
  have hlen2 : ¬ ((pyStrip v).length < 2) := by omega
  simp only [hsent, Bool.false_eq_true, reduceIte, hlen2, hexact, hci]
  have hnum2 : (extractNumPre (pyStrip v) != "") = true := by simpa using hnum
  simp only [hnum2, reduceIte]
  obtain ⟨c, hc⟩ := Option.isSome_iff_exists.mp hfound
  rw [hc]

/-- **C5, witness.** Input `"010"` against `["010-Black", "224-Camel Brown"]`
resolves through the string-equal prefix rule to `"010-Black"`. -/
theorem c5_witness :
    ("010" : String) ≠ "" ∧ (["010-Black", "224-Camel Brown"] : List String) ≠ [] ∧
    normalize_colorway "010" ["010-Black", "224-Camel Brown"] = some "010-Black" := by
  refine ⟨by decide, by decide, ?_⟩
  have h := c5_numeric_prefix_match "010" ["010-Black", "224-Camel Brown"]
    (by decide) (by decide) (by decide) (by decide) (by decide) (by decide) (by decide) (by decide)
  rw [h]
  rfl

/-- **C6, counterexample.** The claim says repeated header names get the
suffixes `_2, _3, …`; the code's `seen` counter starts at 0, so the second
occurrence of `A` becomes `A_1`, not `A_2`. -/
theorem c6_counterexample :
    buildHeader ["A", "A"] = ["A", "A_1"] ∧ buildHeader ["A", "A"] ≠ ["A", "A_2"] := by
  refine ⟨rfl, ?_⟩
  decide

/-- **C6, amended.** In every normalized table header, a blank cell at index
`i` is named `col_<i>`, and the `k`-th repeat of a (post-blank-substitution)
name is suffixed `_k` in order of appearance — `_1, _2, …` — with the first
occurrence keeping the bare name.  (`specHeaderNames` states exactly that
rule; the same construction is used for `_rows_to_df` headers and for the
stitched costing-detail header.) -/
theorem c6_header_names (cells : List String) : buildHeader cells = specHeaderNames cells :=
  buildHeader_eq_spec cells

/-- **C7, counterexample.** A rectangular table with no all-empty rows but a
duplicated header name is *not* returned unchanged: normalizing
`[["A","A"],["x","y"]]` renames the second column to `A_1`. -/
theorem c7_counterexample :
    (rowsToDf [["A", "A"], ["x", "y"]]).cols = ["A", "A_1"] ∧
    (rowsToDf [["A", "A"], ["x", "y"]]).rows = [["x", "y"]] ∧
    (rowsToDf [["A", "A"], ["x", "y"]]).cols ≠ ["A", "A"] := by
  refine ⟨rfl, rfl, ?_⟩
  decide

/-- **C7, amended.** The normalizer is idempotent on clean inputs whose header
names are pairwise distinct and non-empty: for a table whose cells are already
in cleaned form, whose data rows all have the header's width and none of which
is all-empty, normalizing header-plus-data returns the same header names and
the same data rows (the header row wins the most-non-empty-cells vote among
the first five rows, ties to the first). -/
theorem c7_normalizer_idem (hdr : List String) (data : List (List String))
    (hne : hdr ≠ [])
    (hnodup : hdr.Nodup)
    (hnonempty : ∀ c ∈ hdr, c ≠ "")
    (hcleanh : ∀ c ∈ hdr, cleanCellS c = c)
    (hcleand : ∀ r ∈ data, ∀ c ∈ r, cleanCellS c = c)
    (hrect : ∀ r ∈ data, r.length = hdr.length)
    (hnoblank : ∀ r ∈ data, (r.all (fun c => c == "")) = false) :
    rowsToDf (hdr :: data) = ⟨hdr, data⟩ := by
  unfold rowsToDf
  have hmap : (hdr :: data).map (fun r => r.map cleanCellS) = hdr :: data := by
    apply map_self
    intro r hr
    rcases List.mem_cons.mp hr with h | h
    · subst h
      exact map_self _ _ hcleanh
    · exact map_self _ _ (hcleand r h)
  rw [hmap]
  have hempty : (hdr :: data).isEmpty = false := rfl
  simp only [hempty, Bool.false_eq_true, reduceIte]
  have hidx : bestHeaderIdx (hdr :: data) = 0 :=
    bestHeaderIdx_zero hdr data hne hnonempty
      (fun r hr => le_trans (countNonEmpty_le r) (le_of_eq (hrect r hr)))
  rw [hidx]
  have hget : (hdr :: data).getD 0 [] = hdr := rfl
  rw [hget]
  have hbh : buildHeader hdr = hdr := by
    rw [buildHeader_eq_spec]
    exact specHeaderGo_id hdr [] hnonempty (by simp) hnodup
  rw [hbh]
  have hdrop : (hdr :: data).drop (0 + 1) = data := rfl
  rw [hdrop]
  have hpad : data.map (padTrim hdr.length) = data :=
    map_self _ _ (fun r hr => padTrim_self _ _ (hrect r hr))
  rw [hpad]
  have hfilter : data.filter (fun r => !(r.all (fun c => c == ""))) = data := by
    rw [List.filter_eq_self]
    intro r hr
    simp [hnoblank r hr]
  rw [hfilter]

/-- **C7, witness.** A clean two-column table with one data row is returned
unchanged. -/
theorem c7_witness :
    (["A", "B"] : List String) ≠ [] ∧
    rowsToDf [["A", "B"], ["x", ""]] = ⟨["A", "B"], [["x", ""]]⟩ := by
  refine ⟨by decide, ?_⟩
  exact c7_normalizer_idem ["A", "B"] [["x", ""]]
    (by decide) (by decide) (by decide) (by decide) (by decide) (by decide) (by decide)

/-- **C8.** Within one content-report table the builder first scans the column
headers for a CONTENT CODE block (breaking at the first candidate column),
then scans every cell of every row; a row carrying a new block replaces the
current block and contributes no colorway entry, and every other row naming a
three-digit colorway is assigned the block in force before it — the last
block found in the headers or in an earlier row — while rows before any block
produce no entry.  `contentSpec` states that reading directly. -/
theorem c8_content_carry (df : Table) : extract_content_codes df = contentSpec df := by
  unfold extract_content_codes contentSpec
  by_cases h : (df.cols.isEmpty || df.rows.isEmpty) = true
  · simp [h]
  · have h2 : (df.cols.isEmpty || df.rows.isEmpty) = false := by
      cases hx : (df.cols.isEmpty || df.rows.isEmpty) with
      | true => exact absurd hx h
      | false => rfl
    simp only [h2, Bool.false_eq_true, reduceIte]
    exact contentLoop_eq_spec df.rows (headerBlock df.cols) [] []

/-- Carrier for the C10 invariant over the care-code assignment fold. -/
theorem care_fold_prop (cols : List String) (entry : CareEntry) (numCol nameCol : String) :
    ∀ (rows : List (List String)) (res : List (String × CareEntry)),
    (∀ k e, dget res k = some e →
      k.length = 3 ∧ k.data.all Char.isDigit = true ∧ e = entry) →
    ∀ k e, dget (rows.foldl (careAssignRow cols entry numCol nameCol) res) k = some e →
      k.length = 3 ∧ k.data.all Char.isDigit = true ∧ e = entry := by
  intro rows
  induction rows with
  | nil => intro res h k e hk; exact h k e hk
  | cons row rows ih =>
    intro res h k e hk
    simp only [List.foldl_cons] at hk
    refine ih _ ?_ k e hk
    intro q f hq
    unfold careAssignRow at hq
    dsimp only at hq
    generalize pyStrip (pyOr (if (numCol != "") = true then rowGetD cols row numCol else "")
        (if (nameCol != "") = true then rowGetD cols row nameCol else "")) = key at hq
    by_cases hc : (key != "" && isThreeDigits key) = true
    · rw [if_pos hc] at hq
      rcases dget_dset_cases _ _ _ _ _ hq with ⟨hqk, hfe⟩ | hold
      · subst hqk
        subst hfe
        simp only [Bool.and_eq_true, bne_iff_ne, ne_eq] at hc
        have h3 := hc.2
        unfold isThreeDigits at h3
        simp only [Bool.and_eq_true, beq_iff_eq] at h3
        exact ⟨h3.1, h3.2, rfl⟩
      · exact h q f hold
    · rw [if_neg hc] at hq
      exact h q f hq

/-- **C10.** Every key produced by `extract_care_codes` is a three-digit
numeric string, and all keys map to the one shared entry `careEntryOf df`
(a single care code and a single English-instructions string — per-colorway
care data is never differentiated).  If no column header contains
`Care Code`, that entry's care code is the constant `"3000"`; if the English
row search comes back empty, its instructions are the hard-coded fallback. -/
theorem c10_care_single_entry (df : Table) :
    (∀ k e, dget (extract_care_codes df) k = some e →
      k.length = 3 ∧ k.data.all Char.isDigit = true ∧ e = careEntryOf df) ∧
    ((df.cols.all (fun c => !(strContains c "Care Code"))) = true →
      (careEntryOf df).care_code = KNOWN_CARE_CODE) ∧
    ((careSearch df).2 = "" → (careEntryOf df).english_instructions = fallbackInstructions) := by
  refine ⟨?_, ?_, ?_⟩
  · intro k e hk
    unfold extract_care_codes at hk
    split at hk
    · simp [dget] at hk
    · dsimp only at hk
      split at hk
      · exact care_fold_prop df.cols (careEntryOf df) _ _ df.rows [] (by intro q f hq; simp [dget] at hq) k e hk
      · simp [dget] at hk
  · intro hall
    have hfind : df.cols.find? (fun c => strContains c "Care Code") = none := by
      rw [List.find?_eq_none]
      intro c hc
      have := List.all_eq_true.mp hall c hc
      simp at this
      simp [this]
    unfold careEntryOf careSearch
    rw [hfind]
  · intro hinstr
    unfold careEntryOf
    have : ((careSearch df).2 == "") = true := by simp [hinstr]
    simp only [this, reduceIte]

/-- **C10, witness.** On a concrete care report the single entry carries care
code `3000` and the found instructions, registered under the three-digit key
`010`; on a table without a `Care Code` column header the entry defaults to
care code `3000` and the fallback instructions. -/
theorem c10_witness :
    (("010" : String).length = 3 ∧ "010".data.all Char.isDigit = true ∧
      careEntryOf (Table.mk ["Care Code: 3000", "Instructions", "Color Way Number"]
        [["English", "Wash cold", "010"]]) =
      careEntryOf (Table.mk ["Care Code: 3000", "Instructions", "Color Way Number"]
        [["English", "Wash cold", "010"]])) ∧
    (careEntryOf (Table.mk ["a", "b"] [["x", "y"]])).care_code = KNOWN_CARE_CODE ∧
    (careEntryOf (Table.mk ["a", "b"] [["x", "y"]])).english_instructions = fallbackInstructions := by
  refine ⟨?_, ?_, ?_⟩
  · exact (c10_care_single_entry _).1 "010"
      (careEntryOf (Table.mk ["Care Code: 3000", "Instructions", "Color Way Number"]
        [["English", "Wash cold", "010"]])) (by rfl)
  · exact (c10_care_single_entry _).2.1 (by decide)
  · exact (c10_care_single_entry _).2.2 (by rfl)

/-- **C1, counterexample.** The claim (and the spec) speak of nine known
section keys; the parser's known-section list has ten entries. -/
theorem c1_counterexample :
    knownSectionKeys.length = 10 ∧ knownSectionKeys.length ≠ 9 := by
  refine ⟨rfl, ?_⟩
  decide

set_option maxHeartbeats 1600000 in
/-- **C1, amended.** For every document with at least one page, `parse_bom_pdf`
returns a result in which each of the TEN known section keys is present
(possibly as an empty table) and whose supplier lookup is built from the
stitched costing-detail section — never a missing-keys result; a zero-page
document is the fatal error `PDF has no pages`. -/
theorem c1_parse_total (pages : List Page) (h : pages ≠ []) :
    (∃ r, parse_bom_pdf pages = Except.ok r ∧
      (∀ k, k ∈ knownSectionKeys → (dget r.sections k).isSome) ∧
      r.supplier_lookup =
        _build_supplier_lookup ((dget r.sections "costing_detail").getD ⟨[], []⟩)) ∧
    parse_bom_pdf [] = Except.error "PDF has no pages" := by
  constructor
  · unfold parse_bom_pdf
    have hne : pages.isEmpty = false := by
      cases pages with
      | nil => exact absurd rfl h
      | cons a l => rfl
    simp only [hne, Bool.false_eq_true, reduceIte]
    refine ⟨_, rfl, ?_, ?_⟩
    · intro k hk
      dsimp only
      exact fold_setdefault_isSome knownSectionKeys _ _ _ hk
    · dsimp only
  · rfl

/-- **C1, witness.** A one-page document with no text and no tables parses to
a result with every known section key present. -/
theorem c1_witness :
    ([({ text := none, tables := none } : Page)] ≠ ([] : List Page)) ∧
    ((∃ r, parse_bom_pdf [({ text := none, tables := none } : Page)] = Except.ok r ∧
      (∀ k, k ∈ knownSectionKeys → (dget r.sections k).isSome) ∧
      r.supplier_lookup =
        _build_supplier_lookup ((dget r.sections "costing_detail").getD ⟨[], []⟩)) ∧
     parse_bom_pdf [] = Except.error "PDF has no pages") :=
  ⟨List.cons_ne_nil _ _, c1_parse_total _ (List.cons_ne_nil _ _)⟩

/-- **C2, counterexample.** A costing row whose material cell holds the tokens
`003287` and `555666` registers the cleaned supplier only under the FIRST
numeric token `003287`: neither the zero-stripped variant `3287` nor the
second token `555666` is a key of the Supplier Index. -/
theorem c2_counterexample :
    _build_supplier_lookup costingT2 = [("003287", "Acme")] ∧
    dget (_build_supplier_lookup costingT2) "3287" = none ∧
    dget (_build_supplier_lookup costingT2) "555666" = none :=
  ⟨rfl, rfl, rfl⟩

/-- **C2, amended.** For every costing-detail table, each row registers at
most ONE Supplier-Index key — the first 3–6-digit token of its material cell
(or, when the material cell has none, of the first description-named column
holding one) — so the index has at most one key per row and every key is a
3–6-digit numeric token as found in a cell; no leading-zero-stripped variant
key is added.  A lookup the index misses is not served by it at all: for any
non-empty, non-`N/A` code absent from the cache, `resolve_supplier` returns
`_find_supplier`'s scan of the costing rows, which matches a cell by substring
containment or zero-stripped equality — that scan, not the index, is what
makes `3287` resolve after registering only `003287`. -/
theorem c2_single_token_registration (df : Table) (cache : List (String × String))
    (code : String)
    (hc1 : code ≠ "") (hc2 : code ≠ "N/A") (hmiss : dget cache code = none) :
    (_build_supplier_lookup df).length ≤ df.rows.length ∧
    (∀ k v, dget (_build_supplier_lookup df) k = some v →
      k.data.all Char.isDigit = true ∧ 3 ≤ k.length ∧ k.length ≤ 6) ∧
    (resolve_supplier cache df code).1 = _find_supplier df code := by
  refine ⟨?_, ?_, ?_⟩
  · unfold _build_supplier_lookup
    split
    · simp
    · dsimp only
      have hb : ∀ (C : List String) (M S : String) (b : Bool),
          (if b = true then List.foldl (supplierRegisterRow C M S) [] df.rows
           else []).length ≤ df.rows.length := by
        intro C M S b
        cases b
        · simp
        · simp only [reduceIte]
          refine le_trans (foldl_len (supplierRegisterRow C M S)
            (fun lk row => supplierRegisterRow_length C M S lk row) df.rows []) ?_
          simp
      exact hb _ _ _ _
  · intro k v h
    unfold _build_supplier_lookup at h
    split at h
    · simp [dget] at h
    · dsimp only at h
      have hb : ∀ (C : List String) (M S : String) (b : Bool),
          dget (if b = true then List.foldl (supplierRegisterRow C M S) [] df.rows
                else []) k = some v →
          k.data.all Char.isDigit = true ∧ 3 ≤ k.length ∧ k.length ≤ 6 := by
        intro C M S b hh
        cases b
        · simp [dget] at hh
        · simp only [reduceIte] at hh
          exact supplier_fold_keys C M S df.rows []
            (by intro q w hq; simp [dget] at hq) k v hh
      exact hb _ _ _ _ h
  · unfold resolve_supplier
    have h1 : (code == "") = false := by simp [hc1]
    have h2 : (code == "N/A") = false := by simp [hc2]
    simp only [h1, h2, Bool.or_self, Bool.false_eq_true, reduceIte]
    rw [hmiss]
    simp only [Option.getD_none]
    have hv : validSupplierStr "" = false := rfl
    simp only [hv, Bool.false_eq_true, reduceIte]
    split
    · rfl
    · rfl

/-- **C2, witness.** On the two-token costing row, the index misses `3287`,
resolution of `3287` goes through the costing scan and returns `Acme`, and
the index-registered `003287` resolves to `Acme` as well. -/
theorem c2_witness :
    (("3287" : String) ≠ "" ∧ ("3287" : String) ≠ "N/A" ∧
      dget (_build_supplier_lookup costingT2) "3287" = none) ∧
    (_build_supplier_lookup costingT2).length ≤ costingT2.rows.length ∧
    (resolve_supplier (_build_supplier_lookup costingT2) costingT2 "3287").1
      = _find_supplier costingT2 "3287" ∧
    _find_supplier costingT2 "3287" = "Acme" ∧
    (resolve_supplier (_build_supplier_lookup costingT2) costingT2 "003287").1 = "Acme" := by
  have h := c2_single_token_registration costingT2 (_build_supplier_lookup costingT2) "3287"
    (by decide) (by decide) (by decide)
  exact ⟨⟨by decide, by decide, by decide⟩, h.1, h.2.2, by decide, by decide⟩

/-- **C3.** For every comparison row that passes the style check and whose
colorway resolves, the final `Validation Status` equals the classification
`statusOf` of the returned row: zero remaining `N/A` fields among the nineteen
output fields other than the status yields `✅ Validated`, all nineteen yields
`❌ Error: No BOM data matched`, anything in between `⚠️ Partial`; and when the
main-label selection carries no ` - ` id part and the component index gives
its component no material code, `Main Label` is `N/A`. -/
theorem c3_status_classification (ctx : Ctx) (cache row : List (String × String)) (mcw : String)
    (hstyle : styleMismatch ctx.bomStyle (pyUpper (pyStrip (rget row "Buyer Style Number"))) = false)
    (hcw : normalize_colorway (pyStrip (rget row "Color/Option")) ctx.availableCw = some mcw) :
    rget (processRow ctx cache row).1 "Validation Status" = statusOf (processRow ctx cache row).1 ∧
    (strContains ctx.selMain " - " = false → get_code ctx ctx.selMain = "" →
      rget (processRow ctx cache row).1 "Main Label" = "N/A") := by
  obtain ⟨R, hR, hMain⟩ := processRow_cw_branch ctx cache row mcw hstyle hcw
  constructor
  · rw [hR]
    exact statusOf_set R
  · intro hsel hcode
    rw [hR, rget_dset_ne _ _ _ _ (by decide : ("Main Label" : String) ≠ "Validation Status"),
        hMain]
    have hmc : split_comp ctx.selMain = (ctx.selMain, "") := by
      unfold split_comp
      rw [hsel]
      simp
    rw [hmc]
    dsimp only
    by_cases hse : (ctx.selMain != "") = true
    · rw [if_pos hse, hcode]
      rfl
    · rw [if_neg hse]
      rfl

/-- **C3, witness.** A row with style `CL2880` and color `010` against the
`c3bd` document (colorway key `010-Black`, no component entry for the selected
main-label component) gets `Main Label` `N/A` and overall status `⚠️ Partial`. -/
theorem c3_witness :
    styleMismatch (mkCtx c3bd).bomStyle
      (pyUpper (pyStrip (rget c3row "Buyer Style Number"))) = false ∧
    normalize_colorway (pyStrip (rget c3row "Color/Option")) (mkCtx c3bd).availableCw
      = some "010-Black" ∧
    rget (processRow (mkCtx c3bd) [] c3row).1 "Validation Status"
      = statusOf (processRow (mkCtx c3bd) [] c3row).1 ∧
    rget (processRow (mkCtx c3bd) [] c3row).1 "Validation Status" = "⚠️ Partial" ∧
    rget (processRow (mkCtx c3bd) [] c3row).1 "Main Label" = "N/A" := by
  have h := c3_status_classification (mkCtx c3bd) [] c3row "010-Black" (by decide) (by decide)
  exact ⟨by decide, by decide, h.1, by decide, h.2 (by decide) (by decide)⟩

/-- **C4.** For every comparison row whose buyer style and document style are
both non-empty and neither contains the other (case handled by the upstream
upper-casing), the row loop returns immediately: the only field written is
`Validation Status`, set to exactly
`❌ Error: Style mismatch (<buyer> vs <doc>)`; every derived output field is
unchanged and the supplier cache is untouched (no resolution happens). -/
theorem c4_style_mismatch (ctx : Ctx) (cache row : List (String × String))
    (hb : pyUpper (pyStrip (rget row "Buyer Style Number")) ≠ "")
    (hd : ctx.bomStyle ≠ "")
    (h1 : strContains ctx.bomStyle (pyUpper (pyStrip (rget row "Buyer Style Number"))) = false)
    (h2 : strContains (pyUpper (pyStrip (rget row "Buyer Style Number"))) ctx.bomStyle = false) :
    (processRow ctx cache row).1 =
      dset row "Validation Status"
        ("❌ Error: Style mismatch (" ++ pyUpper (pyStrip (rget row "Buyer Style Number"))
          ++ " vs " ++ ctx.bomStyle ++ ")") ∧
    (∀ c ∈ NEW_COLUMNS.dropLast, rget (processRow ctx cache row).1 c = rget row c) ∧
    (processRow ctx cache row).2 = cache := by
  have hne : pyUpper (pyStrip (rget row "Buyer Style Number")) ≠ ctx.bomStyle := by
    intro he
    rw [he, strContains_self] at h1
    exact Bool.noConfusion h1
  have hsm : styleMismatch ctx.bomStyle (pyUpper (pyStrip (rget row "Buyer Style Number"))) = true := by
    unfold styleMismatch
    simp [hb, hd, hne, h1, h2]
  have hout : processRow ctx cache row =
      (dset row "Validation Status"
        ("❌ Error: Style mismatch (" ++ pyUpper (pyStrip (rget row "Buyer Style Number"))
          ++ " vs " ++ ctx.bomStyle ++ ")"), cache) := by
    unfold processRow
    dsimp only
    rw [hsm]
    simp
  refine ⟨?_, ?_, ?_⟩
  · rw [hout]
  · intro c hc
    rw [hout]
    exact rget_dset_ne _ _ _ _ (newCols_dropLast_ne_status c hc)
  · rw [hout]

/-- **C4, witness.** A row with buyer style `XX9999` against the `CL2880`
document gets exactly `❌ Error: Style mismatch (XX9999 vs CL2880)`, with every
other field and the cache untouched. -/
theorem c4_witness :
    pyUpper (pyStrip (rget c4row "Buyer Style Number")) ≠ "" ∧
    (mkCtx c3bd).bomStyle ≠ "" ∧
    (processRow (mkCtx c3bd) [] c4row).1 =
      dset c4row "Validation Status" "❌ Error: Style mismatch (XX9999 vs CL2880)" ∧
    (processRow (mkCtx c3bd) [] c4row).2 = [] := by
  have h := c4_style_mismatch (mkCtx c3bd) [] c4row (by decide) (by decide) (by decide) (by decide)
  refine ⟨by decide, by decide, ?_, h.2.2⟩
  rw [h.1]
  decide

/-- **C9.** The orchestrator is pure given its index inputs: each row's output
depends only on the row and the derived indexes (the shared supplier cache
never changes a result), so processing the comparison rows in reversed order
produces exactly the reversed list of the same resolved rows — the same set
of row contents in either order. -/
theorem c9_order_independence (comparison : List (List (String × String))) (bd : BomData) :
    validate_and_fill comparison.reverse bd = (validate_and_fill comparison bd).reverse := by
  have h1 := validateLoop_pure (mkCtx bd) comparison.reverse [] bd.supplier_lookup
    (cacheInv_refl _ _)
  have h2 := validateLoop_pure (mkCtx bd) comparison [] bd.supplier_lookup
    (cacheInv_refl _ _)
  unfold validate_and_fill
  rw [h1, h2]
  simp

end BomAuto
